import Mathlib

/-!
# Verification of the WigdosXP unified save system (src/savesync.js)

A shallow embedding of the save-sync layer: the tagged-string codec
(`serializeForLocalStorage` / `deserializeFromLocalStorage`), the
IndexedDB-to-localStorage synchronisation engine (`exportToLocalStorage`,
`importFromLocalStorage`) and the parent-frame bridge handlers
(`notifySaveDataChanged`, `requestInitialSaveData`'s response listener,
`handleGetAllLocalStorageData`, `handleSetAllLocalStorageData`).

Modelling conventions:
* JavaScript strings become `String` (operated on through their `List Char`
  data), numbers in the positions the code actually stores (JSON integers,
  epoch milliseconds, byte values) become `Int` or `Nat`, byte buffers become
  `List Nat` with values below 256.
* Promise-based control flow is sequentialised: each JS function becomes a
  pure function from its input state to its output state plus the messages it
  posts.  Exceptions become `Except String`.
* `localStorage` (FlatStore) is an association list preserving enumeration
  order; the IndexedDB object store (Store) is a lookup function
  `String → Option Value` since only `put`/`get` semantics matter.
-/

namespace SaveSync

/-! ## Base64 (models `btoa`/`atob` as used by `arrayBufferToBase64` and
`base64ToArrayBuffer`).  `b64decode` returning `none` models `atob` throwing
`InvalidCharacterError`.  Only strict padded base64 is modelled; the
whitespace-forgiveness of browser `atob` is not exercised by any claim. -/

/-- The standard base64 alphabet character for a sextet `n < 64`. -/
def sextetChar (n : Nat) : Char :=
  if n < 26 then Char.ofNat (65 + n)
  else if n < 52 then Char.ofNat (97 + (n - 26))
  else if n < 62 then Char.ofNat (48 + (n - 52))
  else if n = 62 then '+'
  else '/'

/-- Reverse lookup into the base64 alphabet. -/
def sextetOf (c : Char) : Option Nat :=
  if 'A' ≤ c ∧ c ≤ 'Z' then some (c.toNat - 65)
  else if 'a' ≤ c ∧ c ≤ 'z' then some (c.toNat - 97 + 26)
  else if '0' ≤ c ∧ c ≤ '9' then some (c.toNat - 48 + 52)
  else if c = '+' then some 62
  else if c = '/' then some 63
  else none

/-- Base64-encode a byte list, three bytes to four characters, `=`-padded:
models `btoa(binary)` composed with the byte-to-char loop of
`arrayBufferToBase64`. -/
def b64encode : List Nat → List Char
  | [] => []
  | [b1] => [sextetChar (b1 / 4), sextetChar (b1 % 4 * 16), '=', '=']
  | [b1, b2] => [sextetChar (b1 / 4), sextetChar (b1 % 4 * 16 + b2 / 16),
      sextetChar (b2 % 16 * 4), '=']
  | b1 :: b2 :: b3 :: rest =>
      sextetChar (b1 / 4) :: sextetChar (b1 % 4 * 16 + b2 / 16) ::
        sextetChar (b2 % 16 * 4 + b3 / 64) :: sextetChar (b3 % 64) ::
        b64encode rest

/-- Base64-decode; `none` models an `atob` `InvalidCharacterError`. -/
def b64decode : List Char → Option (List Nat)
  | [] => some []
  | c1 :: c2 :: c3 :: c4 :: rest =>
    match sextetOf c1, sextetOf c2 with
    | some s1, some s2 =>
      if c3 = '=' then
        if c4 = '=' ∧ rest = [] then some [s1 * 4 + s2 / 16] else none
      else
        match sextetOf c3 with
        | some s3 =>
          if c4 = '=' then
            if rest = [] then some [s1 * 4 + s2 / 16, s2 % 16 * 16 + s3 / 4]
            else none
          else
            match sextetOf c4 with
            | some s4 =>
              (b64decode rest).map
                (fun bs => (s1 * 4 + s2 / 16) :: (s2 % 16 * 16 + s3 / 4) ::
                  (s3 % 4 * 64 + s4) :: bs)
            | none => none
        | none => none
    | _, _ => none
  | _ => none

theorem sextetOf_sextetChar : ∀ n < 64, sextetOf (sextetChar n) = some n := by
  decide

theorem sextetChar_ne_eq : ∀ n < 64, sextetChar n ≠ '=' := by decide

theorem b64_roundtrip :
    ∀ bs : List Nat, (∀ b ∈ bs, b < 256) → b64decode (b64encode bs) = some bs := by
  intro bs
  induction bs using b64encode.induct with
  | case1 => intro _; rfl
  | case2 b1 =>
    intro h
    have hb1 := h b1 (by simp)
    have e1 := sextetOf_sextetChar (b1 / 4) (by omega)
    have e2 := sextetOf_sextetChar (b1 % 4 * 16) (by omega)
    simp only [b64encode, b64decode, e1, e2]
    norm_num
    omega
  | case3 b1 b2 =>
    intro h
    have hb1 := h b1 (by simp)
    have hb2 := h b2 (by simp)
    have e1 := sextetOf_sextetChar (b1 / 4) (by omega)
    have e2 := sextetOf_sextetChar (b1 % 4 * 16 + b2 / 16) (by omega)
    have e3 := sextetOf_sextetChar (b2 % 16 * 4) (by omega)
    have n3 := sextetChar_ne_eq (b2 % 16 * 4) (by omega)
    simp only [b64encode, b64decode, e1, e2, if_neg n3, e3, if_pos rfl]
    norm_num
    constructor <;> omega
  | case4 b1 b2 b3 rest ih =>
    intro h
    have hb1 := h b1 (by simp)
    have hb2 := h b2 (by simp)
    have hb3 := h b3 (by simp)
    have e1 := sextetOf_sextetChar (b1 / 4) (by omega)
    have e2 := sextetOf_sextetChar (b1 % 4 * 16 + b2 / 16) (by omega)
    have e3 := sextetOf_sextetChar (b2 % 16 * 4 + b3 / 64) (by omega)
    have e4 := sextetOf_sextetChar (b3 % 64) (by omega)
    have n3 := sextetChar_ne_eq (b2 % 16 * 4 + b3 / 64) (by omega)
    have n4 := sextetChar_ne_eq (b3 % 64) (by omega)
    have ihr := ih (fun b hb => h b (by simp [hb]))
    simp only [b64encode, b64decode, e1, e2, if_neg n3, e3, if_neg n4, e4, ihr,
      Option.map_some]
    norm_num
    refine ⟨by omega, by omega, by omega⟩

/-- `arrayBufferToBase64` from the source: bytes of the buffer, base64-encoded. -/
def arrayBufferToBase64 (bytes : List Nat) : List Char := b64encode bytes

/-- `base64ToArrayBuffer` from the source; `none` models the uncaught `atob`
exception on malformed base64. -/
def base64ToArrayBuffer (cs : List Char) : Option (List Nat) := b64decode cs

/-! ## JSON (models the `JSON.stringify` / `JSON.parse` pair on the texts the
codec produces: integers, strings with escaping, booleans, null, arrays and
objects).  `JSONparse` returning `none` models `JSON.parse` throwing a
`SyntaxError`.  Number parsing covers the integer grammar the encoder emits;
fractional/exponent/hex forms and whitespace tolerance of the browser parser
are not exercised by any claim. -/

/-- Decimal digit characters of `n`, most significant first; fuel-based so the
definition is structurally recursive (any `fuel > n` gives the digits). -/
def natToCharsAux : Nat → Nat → List Char
  | 0, _ => []
  | fuel + 1, n =>
    if n < 10 then [Nat.digitChar n]
    else natToCharsAux fuel (n / 10) ++ [Nat.digitChar (n % 10)]

/-- Decimal representation of a natural number, as `String(n)` produces. -/
def natToChars (n : Nat) : List Char := natToCharsAux (n + 1) n

/-- Decimal representation of an integer, as `String(n)` / `JSON.stringify(n)`
produce for the integral numbers the codec stores. -/
def intToChars (n : Int) : List Char :=
  if n < 0 then '-' :: natToChars n.natAbs else natToChars n.natAbs

/-- Numeric value of a digit string (no sign). -/
def digitsToNat (ds : List Char) : Nat :=
  ds.foldl (fun a c => a * 10 + (c.toNat - 48)) 0

/-- JSON string escaping of one character, as `JSON.stringify` quotes it. -/
def escapeChar (c : Char) : List Char :=
  if c = '"' then ['\\', '"']
  else if c = '\\' then ['\\', '\\']
  else if c = Char.ofNat 8 then ['\\', 'b']
  else if c = Char.ofNat 9 then ['\\', 't']
  else if c = Char.ofNat 10 then ['\\', 'n']
  else if c = Char.ofNat 12 then ['\\', 'f']
  else if c = Char.ofNat 13 then ['\\', 'r']
  else if c.toNat < 32 then
    ['\\', 'u', '0', '0', Nat.digitChar (c.toNat / 16), Nat.digitChar (c.toNat % 16)]
  else [c]

/-- A quoted JSON string literal for the character list `cs`. -/
def quoteChars (cs : List Char) : List Char :=
  '"' :: (cs.map escapeChar).flatten ++ ['"']

/-- Value of a hexadecimal digit character. -/
def hexVal (c : Char) : Option Nat :=
  if '0' ≤ c ∧ c ≤ '9' then some (c.toNat - 48)
  else if 'a' ≤ c ∧ c ≤ 'f' then some (c.toNat - 97 + 10)
  else if 'A' ≤ c ∧ c ≤ 'F' then some (c.toNat - 65 + 10)
  else none

/-- Single-character JSON escapes (other than `\uXXXX`). -/
def unescapeChar (e : Char) : Option Char :=
  if e = '"' then some '"'
  else if e = '\\' then some '\\'
  else if e = '/' then some '/'
  else if e = 'b' then some (Char.ofNat 8)
  else if e = 'f' then some (Char.ofNat 12)
  else if e = 'n' then some (Char.ofNat 10)
  else if e = 'r' then some (Char.ofNat 13)
  else if e = 't' then some (Char.ofNat 9)
  else none

/-- Parse the body of a JSON string literal (after the opening quote), up to
and including the closing quote; returns the decoded characters and the rest. -/
def parseStringBody : List Char → Option (List Char × List Char)
  | [] => none
  | c :: rest =>
    if c = '"' then some ([], rest)
    else if c = '\\' then
      match rest with
      | [] => none
      | e :: rest2 =>
        if e = 'u' then
          match rest2 with
          | h1 :: h2 :: h3 :: h4 :: rest3 =>
            match hexVal h1, hexVal h2, hexVal h3, hexVal h4 with
            | some v1, some v2, some v3, some v4 =>
              (parseStringBody rest3).map (fun sr =>
                (Char.ofNat (((v1 * 16 + v2) * 16 + v3) * 16 + v4) :: sr.1, sr.2))
            | _, _, _, _ => none
          | _ => none
        else
          match unescapeChar e with
          | some uc => (parseStringBody rest2).map (fun sr => (uc :: sr.1, sr.2))
          | none => none
    else (parseStringBody rest).map (fun sr => (c :: sr.1, sr.2))

/-- The JSON value tree produced by `JSON.parse` / consumed by
`JSON.stringify`, with numbers restricted to the integers the codec stores. -/
inductive Json where
  | null
  | bool (b : Bool)
  | num (n : Int)
  | str (s : String)
  | arr (elems : List Json)
  | obj (fields : List (String × Json))

mutual

/-- `JSON.stringify` on the `Json` tree (no whitespace, insertion order). -/
def stringifyJson : Json → List Char
  | .null => "null".data
  | .bool b => if b then "true".data else "false".data
  | .num n => intToChars n
  | .str s => quoteChars s.data
  | .arr xs => '[' :: stringifyArr xs ++ [']']
  | .obj fs => '{' :: stringifyObj fs ++ ['}']

/-- Comma-separated serialisation of array elements. -/
def stringifyArr : List Json → List Char
  | [] => []
  | [x] => stringifyJson x
  | x :: y :: rest => stringifyJson x ++ ',' :: stringifyArr (y :: rest)

/-- Comma-separated serialisation of object fields. -/
def stringifyObj : List (String × Json) → List Char
  | [] => []
  | [(k, v)] => quoteChars k.data ++ ':' :: stringifyJson v
  | (k, v) :: f :: rest =>
      quoteChars k.data ++ ':' :: stringifyJson v ++ ',' :: stringifyObj (f :: rest)

end

/-- Parse a JSON number (integer grammar). -/
def parseNumber : List Char → Option (Json × List Char)
  | [] => none
  | c :: rest =>
    if c = '-' then
      let ds := rest.takeWhile Char.isDigit
      if ds.isEmpty then none
      else some (.num (-(digitsToNat ds : Int)), rest.dropWhile Char.isDigit)
    else
      let ds := (c :: rest).takeWhile Char.isDigit
      if ds.isEmpty then none
      else some (.num ((digitsToNat ds : Nat) : Int), (c :: rest).dropWhile Char.isDigit)

mutual

/-- Fuel-based JSON value parser; returns the value and the unconsumed rest. -/
def parseJson : Nat → List Char → Option (Json × List Char)
  | 0, _ => none
  | fuel + 1, cs =>
    match cs with
    | [] => none
    | c :: rest =>
      if c = 'n' then
        match rest with
        | 'u' :: 'l' :: 'l' :: r => some (.null, r)
        | _ => none
      else if c = 't' then
        match rest with
        | 'r' :: 'u' :: 'e' :: r => some (.bool true, r)
        | _ => none
      else if c = 'f' then
        match rest with
        | 'a' :: 'l' :: 's' :: 'e' :: r => some (.bool false, r)
        | _ => none
      else if c = '"' then
        (parseStringBody rest).map (fun sr => (.str (String.mk sr.1), sr.2))
      else if c = '[' then
        match rest with
        | [] => none
        | c2 :: r2 =>
          if c2 = ']' then some (.arr [], r2)
          else (parseArrElems fuel rest).map (fun ar => (.arr ar.1, ar.2))
      else if c = '{' then
        match rest with
        | [] => none
        | c2 :: r2 =>
          if c2 = '}' then some (.obj [], r2)
          else (parseObjFields fuel rest).map (fun fr => (.obj fr.1, fr.2))
      else parseNumber (c :: rest)

/-- Parse one or more comma-separated array elements up to the closing `]`. -/
def parseArrElems : Nat → List Char → Option (List Json × List Char)
  | 0, _ => none
  | fuel + 1, cs =>
    (parseJson fuel cs).bind (fun xr =>
      match xr.2 with
      | [] => none
      | c :: r =>
        if c = ',' then (parseArrElems fuel r).map (fun ar => (xr.1 :: ar.1, ar.2))
        else if c = ']' then some ([xr.1], r)
        else none)

/-- Parse one or more comma-separated object fields up to the closing `}`. -/
def parseObjFields : Nat → List Char → Option (List (String × Json) × List Char)
  | 0, _ => none
  | fuel + 1, cs =>
    match cs with
    | [] => none
    | c :: rest =>
      if c = '"' then
        (parseStringBody rest).bind (fun kr =>
          match kr.2 with
          | [] => none
          | c2 :: r2 =>
            if c2 = ':' then
              (parseJson fuel r2).bind (fun vr =>
                match vr.2 with
                | [] => none
                | c3 :: r3 =>
                  if c3 = ',' then
                    (parseObjFields fuel r3).map (fun fr =>
                      ((String.mk kr.1, vr.1) :: fr.1, fr.2))
                  else if c3 = '}' then some ([(String.mk kr.1, vr.1)], r3)
                  else none)
            else none)
      else none

end

/-- `JSON.parse`: a whole-text parse; `none` models the thrown `SyntaxError`. -/
def JSONparse (cs : List Char) : Option Json :=
  match parseJson (cs.length + 1) cs with
  | some (j, []) => some j
  | _ => none

/-! ### Digit and takeWhile helper lemmas -/

theorem digitChar_isDigit : ∀ d < 10, (Nat.digitChar d).isDigit = true := by decide

theorem digitChar_toNat : ∀ d < 10, (Nat.digitChar d).toNat = 48 + d := by decide

theorem digitChar_ne_dash : ∀ d < 10, Nat.digitChar d ≠ '-' := by decide

theorem digitsToNat_append_digit (l : List Char) (c : Char) :
    digitsToNat (l ++ [c]) = digitsToNat l * 10 + (c.toNat - 48) := by
  simp [digitsToNat, List.foldl_append]

theorem natToCharsAux_spec :
    ∀ fuel n, n < fuel →
      (∀ c ∈ natToCharsAux fuel n, c.isDigit = true) ∧
      (∃ d tl, natToCharsAux fuel n = Nat.digitChar d :: tl ∧ d < 10) ∧
      digitsToNat (natToCharsAux fuel n) = n := by
  intro fuel
  induction fuel with
  | zero => omega
  | succ f ih =>
    intro n hn
    by_cases h10 : n < 10
    · refine ⟨?_, ⟨n, [], by simp [natToCharsAux, h10], h10⟩, ?_⟩
      · intro c hc
        simp [natToCharsAux, h10] at hc
        subst hc
        exact digitChar_isDigit n h10
      · have ht := digitChar_toNat n h10
        simp [natToCharsAux, h10, digitsToNat]
        omega
    · have hdiv : n / 10 < f := by omega
      obtain ⟨hdig, ⟨d, tl, hdtl, hd⟩, hval⟩ := ih (n / 10) hdiv
      have ht := digitChar_toNat (n % 10) (by omega)
      refine ⟨?_, ⟨d, tl ++ [Nat.digitChar (n % 10)], ?_, hd⟩, ?_⟩
      · intro c hc
        simp only [natToCharsAux, if_neg h10, List.mem_append, List.mem_singleton] at hc
        rcases hc with hc | hc
        · exact hdig c hc
        · subst hc; exact digitChar_isDigit (n % 10) (by omega)
      · simp [natToCharsAux, if_neg h10, hdtl]
      · simp only [natToCharsAux, if_neg h10]
        rw [digitsToNat_append_digit, hval]
        omega

theorem natToChars_all_digits (n : Nat) : ∀ c ∈ natToChars n, c.isDigit = true :=
  (natToCharsAux_spec (n + 1) n (by omega)).1

theorem natToChars_head (n : Nat) :
    ∃ d tl, natToChars n = Nat.digitChar d :: tl ∧ d < 10 :=
  (natToCharsAux_spec (n + 1) n (by omega)).2.1

theorem digitsToNat_natToChars (n : Nat) : digitsToNat (natToChars n) = n :=
  (natToCharsAux_spec (n + 1) n (by omega)).2.2

/-- The head of a character list (if any) fails the predicate `p`. -/
def headFails (p : Char → Bool) : List Char → Prop
  | [] => True
  | c :: _ => p c = false

/-- The head of the unconsumed rest is not a digit, so the preceding numeric
token is read back whole. -/
def noDigitHead : List Char → Prop := headFails Char.isDigit

theorem takeWhile_append_all {p : Char → Bool} :
    ∀ {l rest : List Char}, (∀ a ∈ l, p a = true) → headFails p rest →
      (l ++ rest).takeWhile p = l ∧ (l ++ rest).dropWhile p = rest := by
  intro l
  induction l with
  | nil =>
    intro rest _ hrest
    cases rest with
    | nil => simp
    | cons c cr =>
      have : p c = false := hrest
      simp_all [List.takeWhile, List.dropWhile]
  | cons a l ih =>
    intro rest hall hrest
    have ha : p a = true := hall a (by simp)
    have := ih (fun b hb => hall b (by simp [hb])) hrest
    simp_all [List.takeWhile, List.dropWhile]

theorem parseNumber_natToChars (a : Nat) (rest : List Char) (hr : noDigitHead rest) :
    parseNumber (natToChars a ++ rest) = some (.num (a : Int), rest) := by
  obtain ⟨d, tl, htl, hd⟩ := natToChars_head a
  have hall := natToChars_all_digits a
  obtain ⟨htw, hdw⟩ := takeWhile_append_all hall hr
  have hne : Nat.digitChar d ≠ '-' := digitChar_ne_dash d hd
  rw [htl] at htw hdw ⊢
  simp only [List.cons_append, parseNumber, if_neg hne]
  rw [show Nat.digitChar d :: (tl ++ rest) = (Nat.digitChar d :: tl) ++ rest from rfl]
  rw [htw, hdw]
  have hnonempty : (Nat.digitChar d :: tl).isEmpty = false := rfl
  simp only [hnonempty, Bool.false_eq_true, if_false]
  rw [← htl, digitsToNat_natToChars]

theorem parseNumber_intToChars (n : Int) (rest : List Char) (hr : noDigitHead rest) :
    parseNumber (intToChars n ++ rest) = some (.num n, rest) := by
  by_cases hn : n < 0
  · have hall := natToChars_all_digits n.natAbs
    obtain ⟨htw, hdw⟩ := takeWhile_append_all hall hr
    obtain ⟨d, tl, htl, hd⟩ := natToChars_head n.natAbs
    have hnonempty : (natToChars n.natAbs).isEmpty = false := by
      rw [htl]; rfl
    have hv := digitsToNat_natToChars n.natAbs
    have habs : -((n.natAbs : Nat) : Int) = n := by omega
    simp only [intToChars, if_pos hn, List.cons_append, parseNumber, if_pos rfl,
      htw, hdw, hnonempty, Bool.false_eq_true, if_false, hv, habs]
    simp
  · simp only [intToChars, if_neg hn]
    have := parseNumber_natToChars n.natAbs rest hr
    have habs : (n.natAbs : Int) = n := by omega
    rw [this, habs]

/-! ### String escaping roundtrip -/

theorem hexVal_digitChar : ∀ v < 16, hexVal (Nat.digitChar v) = some v := by decide

theorem parseStringBody_escaped :
    ∀ (cs rest : List Char),
      parseStringBody ((cs.map escapeChar).flatten ++ '"' :: rest) = some (cs, rest) := by
  intro cs
  induction cs with
  | nil =>
    intro rest
    rw [parseStringBody.eq_def]
    rfl
  | cons c cs ih =>
    intro rest
    by_cases h1 : c = '"'
    · subst h1
      show parseStringBody ('\\' :: '"' :: _) = _
      rw [parseStringBody.eq_def]
      simp [unescapeChar, ih rest]
    · by_cases h2 : c = '\\'
      · subst h2
        show parseStringBody ('\\' :: '\\' :: _) = _
        rw [parseStringBody.eq_def]
        simp [unescapeChar, ih rest]
      · by_cases h3 : c = Char.ofNat 8
        · subst h3
          show parseStringBody ('\\' :: 'b' :: _) = _
          rw [parseStringBody.eq_def]
          simp [unescapeChar, ih rest]
        · by_cases h4 : c = Char.ofNat 9
          · subst h4
            show parseStringBody ('\\' :: 't' :: _) = _
            rw [parseStringBody.eq_def]
            simp [unescapeChar, ih rest]
          · by_cases h5 : c = Char.ofNat 10
            · subst h5
              show parseStringBody ('\\' :: 'n' :: _) = _
              rw [parseStringBody.eq_def]
              simp [unescapeChar, ih rest]
            · by_cases h6 : c = Char.ofNat 12
              · subst h6
                show parseStringBody ('\\' :: 'f' :: _) = _
                rw [parseStringBody.eq_def]
                simp [unescapeChar, ih rest]
              · by_cases h7 : c = Char.ofNat 13
                · subst h7
                  show parseStringBody ('\\' :: 'r' :: _) = _
                  rw [parseStringBody.eq_def]
                  simp [unescapeChar, ih rest]
                · by_cases h8 : c.toNat < 32
                  · have hhi := hexVal_digitChar (c.toNat / 16) (by omega)
                    have hlo := hexVal_digitChar (c.toNat % 16) (by omega)
                    have hzero : hexVal '0' = some 0 := by decide
                    have hesc : escapeChar c =
                        ['\\', 'u', '0', '0', Nat.digitChar (c.toNat / 16),
                          Nat.digitChar (c.toNat % 16)] := by
                      simp [escapeChar, h1, h2, h3, h4, h5, h6, h7, h8]
                    simp only [List.map_cons, List.flatten_cons, hesc,
                      List.cons_append, List.append_assoc]
                    rw [parseStringBody.eq_def]
                    simp [hzero, hhi, hlo, ih rest]
                    have hcomb : c.toNat / 16 * 16 + c.toNat % 16 = c.toNat := by omega
                    rw [hcomb, Char.ofNat_toNat]
                  · have hesc : escapeChar c = [c] := by
                      simp [escapeChar, h1, h2, h3, h4, h5, h6, h7, h8]
                    simp only [List.map_cons, List.flatten_cons, hesc,
                      List.singleton_append, List.cons_append]
                    rw [parseStringBody.eq_def]
                    simp only [if_neg h1, if_neg h2, List.nil_append, ih rest]
                    rfl

/-! ### Stringify/parse roundtrip -/

mutual

/-- Parser fuel sufficient for a tree (one unit per nested parser call). -/
def jfuel : Json → Nat
  | .null => 1
  | .bool _ => 1
  | .num _ => 1
  | .str _ => 1
  | .arr xs => jfuelArr xs + 1
  | .obj fs => jfuelObj fs + 1

/-- Parser fuel sufficient for an element list. -/
def jfuelArr : List Json → Nat
  | [] => 1
  | x :: xs => max (jfuel x) (jfuelArr xs) + 1

/-- Parser fuel sufficient for a field list. -/
def jfuelObj : List (String × Json) → Nat
  | [] => 1
  | kv :: fs => max (jfuel kv.2) (jfuelObj fs) + 1

end

theorem jfuel_pos (j : Json) : 1 ≤ jfuel j := by
  cases j <;> simp [jfuel]

theorem jfuelArr_pos (xs : List Json) : 1 ≤ jfuelArr xs := by
  cases xs <;> simp [jfuelArr]

theorem jfuelObj_pos (fs : List (String × Json)) : 1 ≤ jfuelObj fs := by
  cases fs <;> simp [jfuelObj]

theorem noDigitHead_nil : noDigitHead [] := trivial

theorem noDigitHead_cons {c : Char} {l : List Char} (h : c.isDigit = false) :
    noDigitHead (c :: l) := h

theorem mk_data (s : String) : String.mk s.data = s := rfl

theorem digitChar_ne_delims :
    ∀ d < 10, Nat.digitChar d ≠ 'n' ∧ Nat.digitChar d ≠ 't' ∧ Nat.digitChar d ≠ 'f' ∧
      Nat.digitChar d ≠ '"' ∧ Nat.digitChar d ≠ '[' ∧ Nat.digitChar d ≠ '{' ∧
      Nat.digitChar d ≠ ']' ∧ Nat.digitChar d ≠ '}' := by decide

/-- The first character emitted for any serialised value: never a closing
delimiter. -/
theorem stringifyJson_head (j : Json) :
    ∃ c tl, stringifyJson j = c :: tl ∧ c ≠ ']' ∧ c ≠ '}' := by
  cases j with
  | null => exact ⟨'n', ['u', 'l', 'l'], by simp [stringifyJson], by decide, by decide⟩
  | bool b =>
    cases b with
    | false =>
      exact ⟨'f', ['a', 'l', 's', 'e'], by simp [stringifyJson], by decide, by decide⟩
    | true => exact ⟨'t', ['r', 'u', 'e'], by simp [stringifyJson], by decide, by decide⟩
  | num n =>
    by_cases hn : n < 0
    · exact ⟨'-', natToChars n.natAbs, by simp [stringifyJson, intToChars, hn],
        by decide, by decide⟩
    · obtain ⟨d, tl, htl, hd⟩ := natToChars_head n.natAbs
      obtain ⟨_, _, _, _, _, _, h7, h8⟩ := digitChar_ne_delims d hd
      exact ⟨Nat.digitChar d, tl, by simp [stringifyJson, intToChars, hn, htl], h7, h8⟩
  | str s =>
    exact ⟨'"', (s.data.map escapeChar).flatten ++ ['"'],
      by simp [stringifyJson, quoteChars], by decide, by decide⟩
  | arr xs =>
    exact ⟨'[', stringifyArr xs ++ [']'], by simp [stringifyJson], by decide, by decide⟩
  | obj fs =>
    exact ⟨'{', stringifyObj fs ++ ['}'], by simp [stringifyJson], by decide, by decide⟩

/-- A `parseJson` call on a list whose head starts a number dispatches to
`parseNumber`. -/
theorem parseJson_num_dispatch (fuel : Nat) (c : Char) (tl : List Char)
    (hc : c = '-' ∨ ∃ d, d < 10 ∧ c = Nat.digitChar d) :
    parseJson (fuel + 1) (c :: tl) = parseNumber (c :: tl) := by
  have h1 : c ≠ 'n' := by
    rcases hc with rfl | ⟨d, hd, rfl⟩
    · decide
    · exact (digitChar_ne_delims d hd).1
  have h2 : c ≠ 't' := by
    rcases hc with rfl | ⟨d, hd, rfl⟩
    · decide
    · exact (digitChar_ne_delims d hd).2.1
  have h3 : c ≠ 'f' := by
    rcases hc with rfl | ⟨d, hd, rfl⟩
    · decide
    · exact (digitChar_ne_delims d hd).2.2.1
  have h4 : c ≠ '"' := by
    rcases hc with rfl | ⟨d, hd, rfl⟩
    · decide
    · exact (digitChar_ne_delims d hd).2.2.2.1
  have h5 : c ≠ '[' := by
    rcases hc with rfl | ⟨d, hd, rfl⟩
    · decide
    · exact (digitChar_ne_delims d hd).2.2.2.2.1
  have h6 : c ≠ '{' := by
    rcases hc with rfl | ⟨d, hd, rfl⟩
    · decide
    · exact (digitChar_ne_delims d hd).2.2.2.2.2.1
  rw [parseJson.eq_def]
  simp only [if_neg h1, if_neg h2, if_neg h3, if_neg h4, if_neg h5, if_neg h6]

/-- Head shape of the serialised integer. -/
theorem intToChars_head (n : Int) :
    ∃ c tl, intToChars n = c :: tl ∧
      (c = '-' ∨ ∃ d, d < 10 ∧ c = Nat.digitChar d) := by
  by_cases hn : n < 0
  · obtain ⟨d, tl, htl, _⟩ := natToChars_head n.natAbs
    exact ⟨'-', natToChars n.natAbs, by simp [intToChars, hn], Or.inl rfl⟩
  · obtain ⟨d, tl, htl, hd⟩ := natToChars_head n.natAbs
    exact ⟨Nat.digitChar d, tl, by simp [intToChars, hn, htl], Or.inr ⟨d, hd, rfl⟩⟩

theorem parse_stringify_all :
    ∀ fuel : Nat,
      (∀ j rest, jfuel j ≤ fuel → noDigitHead rest →
        parseJson fuel (stringifyJson j ++ rest) = some (j, rest)) ∧
      (∀ xs rest, xs ≠ [] → jfuelArr xs ≤ fuel →
        parseArrElems fuel (stringifyArr xs ++ ']' :: rest) = some (xs, rest)) ∧
      (∀ fs rest, fs ≠ [] → jfuelObj fs ≤ fuel →
        parseObjFields fuel (stringifyObj fs ++ '}' :: rest) = some (fs, rest)) := by
  intro fuel
  induction fuel with
  | zero =>
    refine ⟨fun j _ hf _ => ?_, fun xs _ _ hf => ?_, fun fs _ _ hf => ?_⟩
    · have := jfuel_pos j; omega
    · have := jfuelArr_pos xs; omega
    · have := jfuelObj_pos fs; omega
  | succ fuel ih =>
    obtain ⟨ihJ, ihA, ihO⟩ := ih
    refine ⟨?_, ?_, ?_⟩
    · intro j rest hf hrest
      cases j with
      | null => simp [stringifyJson, parseJson]
      | bool b => cases b <;> simp [stringifyJson, parseJson]
      | num n =>
        obtain ⟨c, tl, hctl, hc⟩ := intToChars_head n
        have hdisp := parseJson_num_dispatch fuel c (tl ++ rest) hc
        calc parseJson (fuel + 1) (stringifyJson (.num n) ++ rest)
            = parseJson (fuel + 1) (c :: (tl ++ rest)) := by
              simp [stringifyJson, hctl]
          _ = parseNumber (c :: (tl ++ rest)) := hdisp
          _ = parseNumber (intToChars n ++ rest) := by simp [hctl]
          _ = some (.num n, rest) := parseNumber_intToChars n rest hrest
      | str s =>
        have hq : stringifyJson (.str s) ++ rest =
            '"' :: ((s.data.map escapeChar).flatten ++ '"' :: rest) := by
          simp [stringifyJson, quoteChars]
        rw [hq, parseJson.eq_def]
        simp [parseStringBody_escaped s.data rest, mk_data]
      | arr xs =>
        cases xs with
        | nil => simp [stringifyJson, stringifyArr, parseJson]
        | cons x xs =>
          obtain ⟨c, tl, hctl, hne1, _⟩ := stringifyJson_head x
          have hshape : ∃ t, stringifyArr (x :: xs) ++ ']' :: rest = c :: t := by
            cases xs with
            | nil => exact ⟨tl ++ ']' :: rest, by simp [stringifyArr, hctl]⟩
            | cons y ys =>
              exact ⟨tl ++ ',' :: stringifyArr (y :: ys) ++ ']' :: rest,
                by simp [stringifyArr, hctl]⟩
          obtain ⟨t, ht⟩ := hshape
          have hbound : jfuelArr (x :: xs) ≤ fuel := by
            simp [jfuel] at hf; omega
          have helems := ihA (x :: xs) rest (by simp) hbound
          have hstep : stringifyJson (.arr (x :: xs)) ++ rest =
              '[' :: (stringifyArr (x :: xs) ++ ']' :: rest) := by
            simp [stringifyJson]
          rw [hstep, parseJson.eq_def]
          rw [ht]
          simp only [reduceIte, if_neg hne1]
          rw [← ht, helems]
          rfl
      | obj fs =>
        cases fs with
        | nil => simp [stringifyJson, stringifyObj, parseJson]
        | cons kv fs =>
          obtain ⟨k, v⟩ := kv
          have hshape : ∃ t, stringifyObj ((k, v) :: fs) ++ '}' :: rest = '"' :: t := by
            cases fs with
            | nil =>
              exact ⟨(k.data.map escapeChar).flatten ++ '"' :: ':' ::
                stringifyJson v ++ '}' :: rest, by simp [stringifyObj, quoteChars]⟩
            | cons f fs2 =>
              exact ⟨(k.data.map escapeChar).flatten ++ '"' :: ':' ::
                (stringifyJson v ++ ',' :: stringifyObj (f :: fs2)) ++ '}' :: rest,
                by simp [stringifyObj, quoteChars]⟩
          obtain ⟨t, ht⟩ := hshape
          have hbound : jfuelObj ((k, v) :: fs) ≤ fuel := by
            simp [jfuel] at hf; omega
          have hfields := ihO ((k, v) :: fs) rest (by simp) hbound
          have hstep : stringifyJson (.obj ((k, v) :: fs)) ++ rest =
              '{' :: (stringifyObj ((k, v) :: fs) ++ '}' :: rest) := by
            simp [stringifyJson]
          rw [hstep, parseJson.eq_def]
          rw [ht]
          simp only [reduceIte]
          rw [← ht, hfields]
          rfl
    · intro xs rest hne hf
      cases xs with
      | nil => exact absurd rfl hne
      | cons x xs =>
        have hbx : jfuel x ≤ fuel := by simp [jfuelArr] at hf; omega
        cases xs with
        | nil =>
          have h1 := ihJ x (']' :: rest) hbx (noDigitHead_cons (by decide))
          rw [show stringifyArr [x] ++ ']' :: rest = stringifyJson x ++ ']' :: rest by
            simp [stringifyArr]]
          rw [parseArrElems.eq_def]
          simp [h1]
        | cons y ys =>
          have hbxs : jfuelArr (y :: ys) ≤ fuel := by
            simp only [jfuelArr] at hf ⊢; omega
          have h1 := ihJ x (',' :: (stringifyArr (y :: ys) ++ ']' :: rest)) hbx
            (noDigitHead_cons (by decide))
          have h2 := ihA (y :: ys) rest (by simp) hbxs
          rw [show stringifyArr (x :: y :: ys) ++ ']' :: rest =
              stringifyJson x ++ ',' :: (stringifyArr (y :: ys) ++ ']' :: rest) by
            simp [stringifyArr]]
          rw [parseArrElems.eq_def]
          simp [h1, h2]
    · intro fs rest hne hf
      cases fs with
      | nil => exact absurd rfl hne
      | cons kv fs =>
        obtain ⟨k, v⟩ := kv
        have hbv : jfuel v ≤ fuel := by simp [jfuelObj] at hf; omega
        cases fs with
        | nil =>
          have h1 := ihJ v ('}' :: rest) hbv (noDigitHead_cons (by decide))
          have hkey := parseStringBody_escaped k.data (':' :: (stringifyJson v ++ '}' :: rest))
          rw [show stringifyObj [(k, v)] ++ '}' :: rest =
              '"' :: ((k.data.map escapeChar).flatten ++
                '"' :: ':' :: (stringifyJson v ++ '}' :: rest)) by
            simp [stringifyObj, quoteChars]]
          rw [parseObjFields.eq_def]
          simp [hkey, h1, mk_data]
        | cons f fs2 =>
          have hbfs : jfuelObj (f :: fs2) ≤ fuel := by
            simp only [jfuelObj] at hf ⊢; omega
          have h1 := ihJ v (',' :: (stringifyObj (f :: fs2) ++ '}' :: rest)) hbv
            (noDigitHead_cons (by decide))
          have h2 := ihO (f :: fs2) rest (by simp) hbfs
          have hkey := parseStringBody_escaped k.data
            (':' :: (stringifyJson v ++ ',' :: (stringifyObj (f :: fs2) ++ '}' :: rest)))
          rw [show stringifyObj ((k, v) :: f :: fs2) ++ '}' :: rest =
              '"' :: ((k.data.map escapeChar).flatten ++
                '"' :: ':' :: (stringifyJson v ++
                  ',' :: (stringifyObj (f :: fs2) ++ '}' :: rest))) by
            simp [stringifyObj, quoteChars]]
          rw [parseObjFields.eq_def]
          simp [hkey, h1, h2, mk_data]

theorem jfuel_le_length (j : Json) : jfuel j ≤ (stringifyJson j).length + 1 := by
  refine @Json.rec (fun j => jfuel j ≤ (stringifyJson j).length + 1)
    (fun xs => jfuelArr xs ≤ (stringifyArr xs).length + 2)
    (fun fs => jfuelObj fs ≤ (stringifyObj fs).length + 2)
    (fun kv => jfuel kv.2 ≤ (stringifyJson kv.2).length + 1)
    ?_ ?_ ?_ ?_ ?_ ?_ ?_ ?_ ?_ ?_ ?_ j
  · simp [jfuel]
  · intro b; cases b <;> simp [jfuel]
  · intro n; simp [jfuel]
  · intro s; simp [jfuel]
  · intro xs ihxs
    simp only [jfuel, stringifyJson, List.length_cons, List.length_append,
      List.length_singleton]
    omega
  · intro fs ihfs
    simp only [jfuel, stringifyJson, List.length_cons, List.length_append,
      List.length_singleton]
    omega
  · simp [jfuelArr, stringifyArr]
  · intro x xs ihx ihxs
    cases xs with
    | nil =>
      simp only [jfuelArr, stringifyArr] at ihxs ⊢
      omega
    | cons y ys =>
      simp only [jfuelArr, stringifyArr, List.length_append, List.length_cons] at ihxs ⊢
      omega
  · simp [jfuelObj, stringifyObj]
  · intro kv fs ihkv ihfs
    cases fs with
    | nil =>
      simp only [jfuelObj, stringifyObj, List.length_append, List.length_cons,
        quoteChars] at ihfs ⊢
      omega
    | cons f fs2 =>
      simp only [jfuelObj, stringifyObj, List.length_append, List.length_cons,
        quoteChars] at ihfs ⊢
      omega
  · intro k v ihv
    exact ihv

theorem JSONparse_stringifyJson (j : Json) : JSONparse (stringifyJson j) = some j := by
  have h := (parse_stringify_all ((stringifyJson j).length + 1)).1 j []
    (jfuel_le_length j) trivial
  rw [List.append_nil] at h
  simp [JSONparse, h]

/-! ## Structured values and the codec
(`serializeForLocalStorage` / `deserializeFromLocalStorage`, src/savesync.js
lines 72-141). -/

/-- The typed-view constructors reachable through `globalThis[ctorName]`:
`ArrayBuffer.isView` values carry one of these constructor names. -/
inductive TAKind where
  | int8
  | uint8
  | uint8c
  | int16
  | uint16
  | int32
  | uint32
  | float32
  | float64
  | bigint64
  | biguint64
  | dataview
deriving DecidableEq

/-- `value.constructor.name` for each view kind. -/
def TAKind.ctorName : TAKind → String
  | .int8 => "Int8Array"
  | .uint8 => "Uint8Array"
  | .uint8c => "Uint8ClampedArray"
  | .int16 => "Int16Array"
  | .uint16 => "Uint16Array"
  | .int32 => "Int32Array"
  | .uint32 => "Uint32Array"
  | .float32 => "Float32Array"
  | .float64 => "Float64Array"
  | .bigint64 => "BigInt64Array"
  | .biguint64 => "BigUint64Array"
  | .dataview => "DataView"

/-- Bytes per element; `new T(buffer)` throws iff the buffer's byte length is
not a multiple of this (`DataView` has byte granularity and never throws). -/
def TAKind.elemBytes : TAKind → Nat
  | .int8 => 1
  | .uint8 => 1
  | .uint8c => 1
  | .dataview => 1
  | .int16 => 2
  | .uint16 => 2
  | .int32 => 4
  | .uint32 => 4
  | .float32 => 4
  | .float64 => 8
  | .bigint64 => 8
  | .biguint64 => 8

/-- The `globalThis[ctor]` lookup of the decoder, restricted to the view
constructors (any other global would either be absent or throw inside the
decoder's `try`, both of which fall back to the raw buffer). -/
def kindOfName (s : String) : Option TAKind :=
  if s = "Int8Array" then some .int8
  else if s = "Uint8Array" then some .uint8
  else if s = "Uint8ClampedArray" then some .uint8c
  else if s = "Int16Array" then some .int16
  else if s = "Uint16Array" then some .uint16
  else if s = "Int32Array" then some .int32
  else if s = "Uint32Array" then some .uint32
  else if s = "Float32Array" then some .float32
  else if s = "Float64Array" then some .float64
  else if s = "BigInt64Array" then some .bigint64
  else if s = "BigUint64Array" then some .biguint64
  else if s = "DataView" then some .dataview
  else none

/-- JavaScript structured values handled by the codec.  Numbers are the
integers the save data stores; byte buffers are lists of byte values; a typed
view records its constructor kind, the whole underlying buffer, and the view
window (`byteOffset`, byte length); `vdateInvalid` models a `Date` holding
`NaN`; a blob is modelled by its content bytes (the decoder always rebuilds
blobs with the generic `application/octet-stream` type). -/
inductive Value where
  | vnull
  | vundef
  | vbool (b : Bool)
  | vnum (n : Int)
  | vstr (s : String)
  | vdate (ms : Int)
  | vdateInvalid
  | varraybuffer (bytes : List Nat)
  | vtypedview (kind : TAKind) (buffer : List Nat) (byteOffset viewByteLength : Nat)
  | vblob (bytes : List Nat)
  | varr (elems : List Value)
  | vobj (fields : List (String × Value))

mutual

/-- `serializeForLocalStorage` (source lines 72-96), on character lists.  The
typed-view branch serialises `value.buffer` — the whole underlying buffer —
and the constructor name only, dropping the view window. -/
def serializeCore : Value → List Char
  | .vnull => "JS:__NULL__".data
  | .vundef => "JS:__UNDEFINED__".data
  | .vdate ms => "DATE:".data ++ intToChars ms
  | .vdateInvalid => "DATE:NaN".data
  | .varraybuffer bs => "AB:".data ++ arrayBufferToBase64 bs
  | .vtypedview k buf _ _ => "TA:".data ++ k.ctorName.data ++ ':' :: arrayBufferToBase64 buf
  | .vblob bs => "BL:".data ++ arrayBufferToBase64 bs
  | .varr xs => "OBJ:".data ++ stringifyJson (.arr (serializeList xs))
  | .vobj fs => "OBJ:".data ++ stringifyJson (.obj (serializeFields fs))
  | .vbool b => "JS:".data ++ stringifyJson (.bool b)
  | .vnum n => "JS:".data ++ stringifyJson (.num n)
  | .vstr s => "JS:".data ++ stringifyJson (.str s)

/-- Array elements are serialised recursively; the container of the encoded
strings is then JSON-stringified. -/
def serializeList : List Value → List Json
  | [] => []
  | v :: vs => .str (String.mk (serializeCore v)) :: serializeList vs

/-- Object properties are serialised recursively, keys kept verbatim. -/
def serializeFields : List (String × Value) → List (String × Json)
  | [] => []
  | kv :: fs => (kv.1, .str (String.mk (serializeCore kv.2))) :: serializeFields fs

end

/-- `serializeForLocalStorage` as a `String → String` style function (the
promise wrapper of the source is sequentialised away). -/
def serializeForLocalStorage (v : Value) : String := String.mk (serializeCore v)

/-- `rest.indexOf(':')` split of the `TA:` payload; `none` models index `-1`. -/
def splitFirstColon : List Char → Option (List Char × List Char)
  | [] => none
  | c :: rest =>
    if c = ':' then some ([], rest)
    else (splitFirstColon rest).map (fun pr => (c :: pr.1, pr.2))

/-- `Number(str)` on the date payload, restricted to the integer strings the
encoder emits (plus `Number('') = 0`); `none` stands for `NaN`, from which the
decoder builds an invalid date. -/
def parseJsNumber : List Char → Option Int
  | [] => some 0
  | c :: rest =>
    if c = '-' then
      if rest ≠ [] ∧ rest.all Char.isDigit then some (-(digitsToNat rest : Int)) else none
    else if (c :: rest).all Char.isDigit then some ((digitsToNat (c :: rest) : Nat) : Int)
    else none

mutual

/-- The `JS:` decode branch returns the `JSON.parse` result as-is. -/
def jsonToValue : Json → Value
  | .null => .vnull
  | .bool b => .vbool b
  | .num n => .vnum n
  | .str s => .vstr s
  | .arr xs => .varr (jsonToValueList xs)
  | .obj fs => .vobj (jsonToValueFields fs)

/-- Elementwise `jsonToValue`. -/
def jsonToValueList : List Json → List Value
  | [] => []
  | x :: xs => jsonToValue x :: jsonToValueList xs

/-- Fieldwise `jsonToValue`. -/
def jsonToValueFields : List (String × Json) → List (String × Value)
  | [] => []
  | f :: fs => (f.1, jsonToValue f.2) :: jsonToValueFields fs

end

mutual

/-- `deserializeFromLocalStorage` (source lines 99-141), fuel-based because
the `OBJ:` branch re-enters the decoder on each string leaf.  `Except.error`
models an uncaught exception (`atob` or `JSON.parse` throwing); the final
catch-all returns the raw string unchanged. -/
def deserializeCore : Nat → List Char → Except String Value
  | 0, _ => .error "recursion limit"
  | fuel + 1, cs =>
    if cs = "JS:__NULL__".data then .ok .vnull
    else if cs = "JS:__UNDEFINED__".data then .ok .vundef
    else if "AB:".data.isPrefixOf cs then
      match base64ToArrayBuffer (cs.drop 3) with
      | some bs => .ok (.varraybuffer bs)
      | none => .error "InvalidCharacterError"
    else if "TA:".data.isPrefixOf cs then
      match splitFirstColon (cs.drop 3) with
      | none =>
        match base64ToArrayBuffer (cs.drop 3) with
        | some bs => .ok (.varraybuffer bs)
        | none => .error "InvalidCharacterError"
      | some (ctor, b64) =>
        match base64ToArrayBuffer b64 with
        | none => .error "InvalidCharacterError"
        | some bs =>
          match kindOfName (String.mk ctor) with
          | some k =>
            if bs.length % k.elemBytes = 0 then .ok (.vtypedview k bs 0 bs.length)
            else .ok (.varraybuffer bs)
          | none => .ok (.varraybuffer bs)
    else if "BL:".data.isPrefixOf cs then
      match base64ToArrayBuffer (cs.drop 3) with
      | some bs => .ok (.vblob bs)
      | none => .error "InvalidCharacterError"
    else if "DATE:".data.isPrefixOf cs then
      match parseJsNumber (cs.drop 5) with
      | some ms => .ok (.vdate ms)
      | none => .ok .vdateInvalid
    else if "JS:".data.isPrefixOf cs then
      match JSONparse (cs.drop 3) with
      | some j => .ok (jsonToValue j)
      | none => .error "SyntaxError"
    else if "OBJ:".data.isPrefixOf cs then
      match JSONparse (cs.drop 4) with
      | some j => revJson fuel j
      | none => .error "SyntaxError"
    else .ok (.vstr (String.mk cs))

/-- The `rev` helper of the `OBJ:` branch: strings are decoded recursively,
containers are rebuilt recursively, other leaves pass through. -/
def revJson : Nat → Json → Except String Value
  | 0, _ => .error "recursion limit"
  | fuel + 1, j =>
    match j with
    | .null => .ok .vnull
    | .str s => deserializeCore fuel s.data
    | .arr xs => (revList fuel xs).map .varr
    | .obj fs => (revFields fuel fs).map .vobj
    | .num n => .ok (.vnum n)
    | .bool b => .ok (.vbool b)

/-- `rev` over array elements. -/
def revList : Nat → List Json → Except String (List Value)
  | 0, _ => .error "recursion limit"
  | _ + 1, [] => .ok []
  | fuel + 1, x :: xs => do
    let v ← revJson fuel x
    let vs ← revList fuel xs
    .ok (v :: vs)

/-- `rev` over object fields. -/
def revFields : Nat → List (String × Json) → Except String (List (String × Value))
  | 0, _ => .error "recursion limit"
  | _ + 1, [] => .ok []
  | fuel + 1, f :: fs => do
    let v ← revJson fuel f.2
    let vs ← revFields fuel fs
    .ok ((f.1, v) :: vs)

end

/-- `deserializeFromLocalStorage`: the recursion through nested `OBJ:` leaves
always lands on strictly shorter strings, so `length + 1` fuel is enough. -/
def deserializeFromLocalStorage (s : String) : Except String Value :=
  deserializeCore (s.data.length + 1) s.data

mutual

/-- Values whose codec roundtrip is exact: byte values fit in a byte (as a
real `Uint8Array` guarantees) and every typed view spans its whole underlying
buffer (`byteOffset` 0, view length the full buffer, length a multiple of the
element size) — the encoder drops the view window, so partial views are the
values that do not roundtrip. -/
def goodValue : Value → Bool
  | .vnull => true
  | .vundef => true
  | .vbool _ => true
  | .vnum _ => true
  | .vstr _ => true
  | .vdate _ => true
  | .vdateInvalid => true
  | .varraybuffer bs => bs.all (fun b => b < 256)
  | .vtypedview k buf off len =>
      buf.all (fun b => b < 256) && (off == 0) && (len == buf.length) &&
        (buf.length % k.elemBytes == 0)
  | .vblob bs => bs.all (fun b => b < 256)
  | .varr xs => goodList xs
  | .vobj fs => goodFields fs

/-- `goodValue` on every array element. -/
def goodList : List Value → Bool
  | [] => true
  | v :: vs => goodValue v && goodList vs

/-- `goodValue` on every field value. -/
def goodFields : List (String × Value) → Bool
  | [] => true
  | kv :: fs => goodValue kv.2 && goodFields fs

end

/-- Decoder fuel needed for the elements of a serialised array. -/
def serLenList : List Value → Nat
  | [] => 0
  | v :: vs => (serializeCore v).length + 3 + serLenList vs

/-- Decoder fuel needed for the fields of a serialised object. -/
def serLenFields : List (String × Value) → Nat
  | [] => 0
  | kv :: fs => (serializeCore kv.2).length + 3 + serLenFields fs

theorem escapeChar_len (c : Char) : 1 ≤ (escapeChar c).length := by
  unfold escapeChar
  split_ifs <;> simp

theorem flatten_escape_len (cs : List Char) :
    cs.length ≤ ((cs.map escapeChar).flatten).length := by
  induction cs with
  | nil => simp
  | cons c cs ih =>
    have := escapeChar_len c
    simp only [List.map_cons, List.flatten_cons, List.length_append, List.length_cons]
    omega

theorem data_mk (l : List Char) : (String.mk l).data = l := rfl

theorem serList_len (xs : List Value) :
    serLenList xs ≤ (stringifyArr (serializeList xs)).length + 1 := by
  induction xs with
  | nil => simp [serLenList, serializeList, stringifyArr]
  | cons v vs ih =>
    cases vs with
    | nil =>
      have := flatten_escape_len (serializeCore v)
      simp only [serLenList, serializeList, stringifyArr, stringifyJson, quoteChars,
        data_mk, List.length_cons, List.length_append, List.length_singleton]
      omega
    | cons w ws =>
      have := flatten_escape_len (serializeCore v)
      simp only [serLenList, serializeList, stringifyArr, stringifyJson, quoteChars,
        data_mk, List.length_cons, List.length_append, List.length_singleton] at ih ⊢
      omega

theorem serFields_len (fs : List (String × Value)) :
    serLenFields fs ≤ (stringifyObj (serializeFields fs)).length + 1 := by
  induction fs with
  | nil => simp [serLenFields, serializeFields, stringifyObj]
  | cons kv fs ih =>
    cases fs with
    | nil =>
      have := flatten_escape_len (serializeCore kv.2)
      simp only [serLenFields, serializeFields, stringifyObj, stringifyJson, quoteChars,
        data_mk, List.length_cons, List.length_append, List.length_singleton]
      omega
    | cons f fs2 =>
      have := flatten_escape_len (serializeCore kv.2)
      simp only [serLenFields, serializeFields, stringifyObj, stringifyJson, quoteChars,
        data_mk, List.length_cons, List.length_append, List.length_singleton] at ih ⊢
      omega

theorem parseJsNumber_intToChars (n : Int) : parseJsNumber (intToChars n) = some n := by
  by_cases hn : n < 0
  · obtain ⟨d, tl, htl, hd⟩ := natToChars_head n.natAbs
    have hall : (natToChars n.natAbs).all Char.isDigit = true := by
      simp only [List.all_eq_true]
      exact natToChars_all_digits n.natAbs
    have hne : natToChars n.natAbs ≠ [] := by simp [htl]
    simp only [intToChars, if_pos hn, parseJsNumber, if_pos rfl, hne, hall,
      ne_eq, not_false_iff, true_and, if_pos trivial]
    rw [digitsToNat_natToChars]
    simp only [Option.some.injEq]
    omega
  · obtain ⟨d, tl, htl, hd⟩ := natToChars_head n.natAbs
    have hall : (natToChars n.natAbs).all Char.isDigit = true := by
      simp only [List.all_eq_true]
      exact natToChars_all_digits n.natAbs
    have hnd : Nat.digitChar d ≠ '-' := digitChar_ne_dash d hd
    rw [show intToChars n = Nat.digitChar d :: tl by simp [intToChars, hn, htl]]
    rw [parseJsNumber.eq_def]
    simp only [if_neg hnd, ← htl, hall, if_pos trivial]
    rw [digitsToNat_natToChars]
    simp only [Option.some.injEq]
    omega

theorem splitFirstColon_append :
    ∀ (l rest : List Char), (∀ c ∈ l, c ≠ ':') →
      splitFirstColon (l ++ ':' :: rest) = some (l, rest) := by
  intro l
  induction l with
  | nil => intro rest _; simp [splitFirstColon]
  | cons c l ih =>
    intro rest h
    have hc : c ≠ ':' := h c (by simp)
    simp [splitFirstColon, hc, ih rest (fun b hb => h b (by simp [hb]))]

theorem ctorName_no_colon : ∀ k : TAKind, ∀ c ∈ (TAKind.ctorName k).data, c ≠ ':' := by
  intro k
  cases k <;> decide

theorem kindOfName_ctorName : ∀ k : TAKind, kindOfName k.ctorName = some k := by
  intro k
  cases k <;> rfl

/-! ### Decoder branch dispatch lemmas -/

theorem deserializeCore_js_branch (g : Nat) (rest : List Char)
    (h1 : ('J' :: 'S' :: ':' :: rest) ≠ "JS:__NULL__".data)
    (h2 : ('J' :: 'S' :: ':' :: rest) ≠ "JS:__UNDEFINED__".data) :
    deserializeCore (g + 1) ('J' :: 'S' :: ':' :: rest) =
      (match JSONparse rest with
       | some j => .ok (jsonToValue j)
       | none => .error "SyntaxError") := by
  rw [deserializeCore.eq_def]
  simp [List.isPrefixOf, h1, h2]

theorem deserializeCore_obj_branch (g : Nat) (rest : List Char) :
    deserializeCore (g + 1) ('O' :: 'B' :: 'J' :: ':' :: rest) =
      (match JSONparse rest with
       | some j => revJson g j
       | none => .error "SyntaxError") := by
  rw [deserializeCore.eq_def]
  simp [List.isPrefixOf]

theorem deserializeCore_date_branch (g : Nat) (rest : List Char) :
    deserializeCore (g + 1) ('D' :: 'A' :: 'T' :: 'E' :: ':' :: rest) =
      (match parseJsNumber rest with
       | some ms => .ok (.vdate ms)
       | none => .ok .vdateInvalid) := by
  rw [deserializeCore.eq_def]
  simp [List.isPrefixOf]

theorem deserializeCore_ab_branch (g : Nat) (rest : List Char) :
    deserializeCore (g + 1) ('A' :: 'B' :: ':' :: rest) =
      (match base64ToArrayBuffer rest with
       | some bs => .ok (.varraybuffer bs)
       | none => .error "InvalidCharacterError") := by
  rw [deserializeCore.eq_def]
  simp [List.isPrefixOf]

theorem deserializeCore_bl_branch (g : Nat) (rest : List Char) :
    deserializeCore (g + 1) ('B' :: 'L' :: ':' :: rest) =
      (match base64ToArrayBuffer rest with
       | some bs => .ok (.vblob bs)
       | none => .error "InvalidCharacterError") := by
  rw [deserializeCore.eq_def]
  simp [List.isPrefixOf]

theorem deserializeCore_ta_branch (g : Nat) (rest : List Char) :
    deserializeCore (g + 1) ('T' :: 'A' :: ':' :: rest) =
      (match splitFirstColon rest with
       | none =>
         match base64ToArrayBuffer rest with
         | some bs => .ok (.varraybuffer bs)
         | none => .error "InvalidCharacterError"
       | some (ctor, b64) =>
         match base64ToArrayBuffer b64 with
         | none => .error "InvalidCharacterError"
         | some bs =>
           match kindOfName (String.mk ctor) with
           | some k =>
             if bs.length % k.elemBytes = 0 then .ok (.vtypedview k bs 0 bs.length)
             else .ok (.varraybuffer bs)
           | none => .ok (.varraybuffer bs)) := by
  rw [deserializeCore.eq_def]
  simp [List.isPrefixOf]

/-! ### Codec roundtrip -/

theorem digitChar_ne_underscore : ∀ d < 10, Nat.digitChar d ≠ '_' := by decide

theorem null_lit : "JS:__NULL__".data =
    ['J', 'S', ':', '_', '_', 'N', 'U', 'L', 'L', '_', '_'] := rfl

theorem undef_lit : "JS:__UNDEFINED__".data =
    ['J', 'S', ':', '_', '_', 'U', 'N', 'D', 'E', 'F', 'I', 'N', 'E', 'D', '_', '_'] := rfl

theorem roundtrip_strong :
    ∀ fuel : Nat,
      (∀ v, goodValue v = true → (serializeCore v).length < fuel →
        deserializeCore fuel (serializeCore v) = .ok v) ∧
      (∀ xs, goodList xs = true → serLenList xs < fuel →
        revList fuel (serializeList xs) = .ok xs) ∧
      (∀ fs, goodFields fs = true → serLenFields fs < fuel →
        revFields fuel (serializeFields fs) = .ok fs) := by
  intro fuel
  induction fuel using Nat.strong_induction_on with
  | _ fuel ih =>
    cases fuel with
    | zero =>
      exact ⟨fun v _ h => absurd h (by omega), fun xs _ h => absurd h (by omega),
        fun fs _ h => absurd h (by omega)⟩
    | succ g =>
      refine ⟨?_, ?_, ?_⟩
      · intro v hgood hlen
        cases v with
        | vnull => rfl
        | vundef => rfl
        | vdateInvalid => rfl
        | vbool b => cases b <;> rfl
        | vnum n =>
          have hser : serializeCore (.vnum n) = 'J' :: 'S' :: ':' :: intToChars n := by
            simp [serializeCore, stringifyJson]
          obtain ⟨c, tl, hctl, hc⟩ := intToChars_head n
          have hcu : c ≠ '_' := by
            rcases hc with rfl | ⟨d, hd, rfl⟩
            · decide
            · exact digitChar_ne_underscore d hd
          have h1 : ('J' :: 'S' :: ':' :: intToChars n) ≠ "JS:__NULL__".data := by
            rw [hctl, null_lit]
            simp [hcu]
          have h2 : ('J' :: 'S' :: ':' :: intToChars n) ≠ "JS:__UNDEFINED__".data := by
            rw [hctl, undef_lit]
            simp [hcu]
          have hparse : JSONparse (intToChars n) = some (.num n) := by
            have h := JSONparse_stringifyJson (.num n)
            simpa [stringifyJson] using h
          rw [hser, deserializeCore_js_branch g _ h1 h2, hparse]
          simp [jsonToValue]
        | vstr s =>
          have hser : serializeCore (.vstr s) = 'J' :: 'S' :: ':' :: quoteChars s.data := by
            simp [serializeCore, stringifyJson]
          have h1 : ('J' :: 'S' :: ':' :: quoteChars s.data) ≠ "JS:__NULL__".data := by
            rw [null_lit]
            simp [quoteChars]
          have h2 : ('J' :: 'S' :: ':' :: quoteChars s.data) ≠ "JS:__UNDEFINED__".data := by
            rw [undef_lit]
            simp [quoteChars]
          have hparse : JSONparse (quoteChars s.data) = some (.str s) := by
            have h := JSONparse_stringifyJson (.str s)
            simpa [stringifyJson] using h
          rw [hser, deserializeCore_js_branch g _ h1 h2, hparse]
          simp [jsonToValue]
        | vdate ms =>
          have hser : serializeCore (.vdate ms) =
              'D' :: 'A' :: 'T' :: 'E' :: ':' :: intToChars ms := by
            simp [serializeCore]
          rw [hser, deserializeCore_date_branch g _, parseJsNumber_intToChars ms]
        | varraybuffer bs =>
          have hbytes : ∀ b ∈ bs, b < 256 := by
            simpa [goodValue, List.all_eq_true] using hgood
          have hser : serializeCore (.varraybuffer bs) = 'A' :: 'B' :: ':' :: b64encode bs := by
            simp [serializeCore, arrayBufferToBase64]
          have hb : base64ToArrayBuffer (b64encode bs) = some bs := b64_roundtrip bs hbytes
          rw [hser, deserializeCore_ab_branch g _, hb]
        | vblob bs =>
          have hbytes : ∀ b ∈ bs, b < 256 := by
            simpa [goodValue, List.all_eq_true] using hgood
          have hser : serializeCore (.vblob bs) = 'B' :: 'L' :: ':' :: b64encode bs := by
            simp [serializeCore, arrayBufferToBase64]
          have hb : base64ToArrayBuffer (b64encode bs) = some bs := b64_roundtrip bs hbytes
          rw [hser, deserializeCore_bl_branch g _, hb]
        | vtypedview k buf off len =>
          simp only [goodValue, Bool.and_eq_true, beq_iff_eq, List.all_eq_true,
            decide_eq_true_eq] at hgood
          obtain ⟨⟨⟨hbytes, hoff⟩, hvlen⟩, hmod⟩ := hgood
          subst hoff
          subst hvlen
          have hser : serializeCore (.vtypedview k buf 0 buf.length) =
              'T' :: 'A' :: ':' :: (k.ctorName.data ++ ':' :: b64encode buf) := by
            simp [serializeCore, arrayBufferToBase64]
          have hsplit := splitFirstColon_append k.ctorName.data (b64encode buf)
            (ctorName_no_colon k)
          have hb : base64ToArrayBuffer (b64encode buf) = some buf := b64_roundtrip buf hbytes
          rw [hser, deserializeCore_ta_branch g _, hsplit]
          simp [hb, mk_data, kindOfName_ctorName, hmod]
        | varr xs =>
          have hgl : goodList xs = true := by simpa [goodValue] using hgood
          have hser : serializeCore (.varr xs) =
              'O' :: 'B' :: 'J' :: ':' :: stringifyJson (.arr (serializeList xs)) := by
            simp [serializeCore]
          have hlenArr : (serializeCore (.varr xs)).length =
              (stringifyArr (serializeList xs)).length + 6 := by
            simp [serializeCore, stringifyJson]
          cases g with
          | zero => omega
          | succ g2 =>
            have hslen := serList_len xs
            have hrev := (ih g2 (by omega)).2.1 xs hgl (by omega)
            rw [hser, deserializeCore_obj_branch (g2 + 1) _,
              JSONparse_stringifyJson (.arr (serializeList xs))]
            show (revList g2 (serializeList xs)).map Value.varr = .ok (.varr xs)
            rw [hrev]
            rfl
        | vobj fs =>
          have hgf : goodFields fs = true := by simpa [goodValue] using hgood
          have hser : serializeCore (.vobj fs) =
              'O' :: 'B' :: 'J' :: ':' :: stringifyJson (.obj (serializeFields fs)) := by
            simp [serializeCore]
          have hlenObj : (serializeCore (.vobj fs)).length =
              (stringifyObj (serializeFields fs)).length + 6 := by
            simp [serializeCore, stringifyJson]
          cases g with
          | zero => omega
          | succ g2 =>
            have hslen := serFields_len fs
            have hrev := (ih g2 (by omega)).2.2 fs hgf (by omega)
            rw [hser, deserializeCore_obj_branch (g2 + 1) _,
              JSONparse_stringifyJson (.obj (serializeFields fs))]
            show (revFields g2 (serializeFields fs)).map Value.vobj = .ok (.vobj fs)
            rw [hrev]
            rfl
      · intro xs hgood hlen
        cases xs with
        | nil => rfl
        | cons v vs =>
          simp only [goodList, Bool.and_eq_true] at hgood
          obtain ⟨hgv, hgvs⟩ := hgood
          simp only [serLenList] at hlen
          cases g with
          | zero => omega
          | succ g2 =>
            have hdv := (ih g2 (by omega)).1 v hgv (by omega)
            have hvs := (ih (g2 + 1) (by omega)).2.1 vs hgvs (by omega)
            show (do
              let v2 ← revJson (g2 + 1) (.str (String.mk (serializeCore v)))
              let vs2 ← revList (g2 + 1) (serializeList vs)
              (.ok (v2 :: vs2) : Except String (List Value))) = .ok (v :: vs)
            rw [show revJson (g2 + 1) (.str (String.mk (serializeCore v))) =
                deserializeCore g2 (serializeCore v) from rfl]
            rw [hdv, hvs]
            rfl
      · intro fs hgood hlen
        cases fs with
        | nil => rfl
        | cons kv fs =>
          simp only [goodFields, Bool.and_eq_true] at hgood
          obtain ⟨hgv, hgfs⟩ := hgood
          simp only [serLenFields] at hlen
          cases g with
          | zero => omega
          | succ g2 =>
            have hdv := (ih g2 (by omega)).1 kv.2 hgv (by omega)
            have hfs := (ih (g2 + 1) (by omega)).2.2 fs hgfs (by omega)
            show (do
              let v2 ← revJson (g2 + 1) (.str (String.mk (serializeCore kv.2)))
              let fs2 ← revFields (g2 + 1) (serializeFields fs)
              (.ok ((kv.1, v2) :: fs2) : Except String (List (String × Value)))) =
              .ok (kv :: fs)
            rw [show revJson (g2 + 1) (.str (String.mk (serializeCore kv.2))) =
                deserializeCore g2 (serializeCore kv.2) from rfl]
            rw [hdv, hfs]
            rfl

/-- Codec roundtrip for every value in which typed views span their whole
buffer: the exported string decodes back to the original value. -/
theorem deserialize_serialize (v : Value) (h : goodValue v = true) :
    deserializeFromLocalStorage (serializeForLocalStorage v) = .ok v := by
  have hrt := (roundtrip_strong ((serializeCore v).length + 1)).1 v h (by omega)
  simpa [deserializeFromLocalStorage, serializeForLocalStorage, data_mk] using hrt

/-! ## FlatStore, Store, SyncEngine and Bridge
(src/savesync.js lines 209-658). -/

/-- `localStorage`: ordered string entries; enumeration order is the list
order (`localStorage.key(i)` / `getItem`). -/
abbrev FlatStore := List (String × String)

/-- The IndexedDB object store, seen through `put`/`get`. -/
abbrev Store := String → Option Value

/-- `localStorage.getItem`. -/
def fsGet : FlatStore → String → Option String
  | [], _ => none
  | kv :: rest, k => if kv.1 = k then some kv.2 else fsGet rest k

/-- `localStorage.setItem`: updates an existing key in place, appends a new
one. -/
def fsSet : FlatStore → String → String → FlatStore
  | [], k, v => [(k, v)]
  | kv :: rest, k, v => if kv.1 = k then (k, v) :: rest else kv :: fsSet rest k v

/-- A sequence of `setItem` writes. -/
def fsSetAll (fs : FlatStore) (ws : List (String × String)) : FlatStore :=
  ws.foldl (fun a kv => fsSet a kv.1 kv.2) fs

/-- `String.prototype.startsWith`. -/
def strStartsWith (s p : String) : Bool := p.data.isPrefixOf s.data

/-- `String.prototype.endsWith`. -/
def strEndsWith (s p : String) : Bool := p.data.isSuffixOf s.data

/-- `String.prototype.substring(n)`. -/
def strDrop (s : String) (n : Nat) : String := String.mk (s.data.drop n)

/-- `CONFIG.localStoragePrefix`. -/
def localStoragePrefix : String := "dt"

/-- The reserved companion-metadata suffix `'::ts'`. -/
def tsSuffix : String := "::ts"

/-- `IndexedDBSync.saveToIndexedDB` (lines 299-313): an idempotent `put`. -/
def storePut (st : Store) (k : String) (v : Value) : Store :=
  fun q => if q = k then some v else st q

/-- `put` for each write in order. -/
def putAll (st : Store) (ws : List (String × Value)) : Store :=
  ws.foldl (fun s kv => storePut s kv.1 kv.2) st

/-- Messages posted to the hosting context. -/
inductive Msg where
  | saveDataChanged (data : List (String × String))
  | saveDataResponse (messageId : String) (data : Option (List (String × String)))
  | loadDataResponse (messageId : String) (success : Bool)

/-- The data entries carried by a message (empty for `loadDataResponse`). -/
def msgDataEntries : Msg → List (String × String)
  | .saveDataChanged data => data
  | .saveDataResponse _ (some data) => data
  | .saveDataResponse _ none => []
  | .loadDataResponse _ _ => []

/-- One iteration of the `importFromLocalStorage` enumeration loop
(lines 374-421): skip `::ts` companion keys, restrict to the namespace
prefix, decode (a decode error is caught and the entry skipped), upsert into
Store and count. -/
def importStep (acc : Nat × Store) (kv : String × String) : Nat × Store :=
  if strEndsWith kv.1 tsSuffix then acc
  else if strStartsWith kv.1 localStoragePrefix then
    match deserializeFromLocalStorage kv.2 with
    | .ok v => (acc.1 + 1, storePut acc.2 (strDrop kv.1 localStoragePrefix.length) v)
    | .error _ => acc
  else acc

/-- `IndexedDBSync.importFromLocalStorage` (lines 368-435), sequentialised:
returns the reported import count and the Store after all `put`s resolve. -/
def importFromLocalStorage (fs : FlatStore) (st : Store) : Nat × Store :=
  fs.foldl importStep (0, st)

/-- The notification payload: all FlatStore entries except `::ts` companions
(lines 475-480). -/
def notifyPayload (fs : FlatStore) : List (String × String) :=
  fs.filter (fun kv => !strEndsWith kv.1 tsSuffix)

/-- `JSON.stringify(allLocalStorageData)` — the cached-digest string. -/
def payloadString (payload : List (String × String)) : String :=
  String.mk (stringifyJson (.obj (payload.map (fun kv => (kv.1, .str kv.2)))))

/-- `WigdosXPSync.notifySaveDataChanged` (lines 469-500): no-op outside an
iframe; otherwise builds the payload, compares its digest with
`lastSyncedData` and posts `saveDataChanged` only when it differs.  Returns
the new `lastSyncedData` and the posted messages. -/
def notifySaveDataChanged (isInIframe : Bool) (fs : FlatStore) (last : Option String) :
    Option String × List Msg :=
  if !isInIframe then (last, [])
  else
    let dataString := payloadString (notifyPayload fs)
    if last = some dataString then (last, [])
    else (some dataString, [.saveDataChanged (notifyPayload fs)])

/-- `MAX_LOCALSTORAGE_BYTES` (line 327). -/
def MAX_LOCALSTORAGE_BYTES : Nat := 4 * 1024 * 1024

/-- The result of `getAllFromIndexedDB`: `(keys, values)` pairs plus the
key-to-timestamp mapping from the `timestamp` index. -/
structure IDBData where
  entries : List (String × Value)
  timestamps : List (String × Int)

/-- The outcome of one `exportToLocalStorage` cycle. -/
structure ExportResult where
  count : Nat
  flat : FlatStore
  lastSynced : Option String
  sent : List Msg

/-- One entry of the export batch (lines 328-350): serialise, skip (returning
`false`) when the encoded size exceeds the limit, otherwise write the data
entry and, when the index supplied a timestamp, the `::ts` companion. -/
def exportStep (tss : List (String × Int)) (acc : FlatStore × Nat) (kv : String × Value) :
    FlatStore × Nat :=
  let serialized := serializeForLocalStorage kv.2
  if serialized.length > MAX_LOCALSTORAGE_BYTES then acc
  else
    let fs1 := fsSet acc.1 (localStoragePrefix ++ kv.1) serialized
    let fs2 :=
      match tss.lookup kv.1 with
      | some ts =>
        fsSet fs1 (localStoragePrefix ++ kv.1 ++ tsSuffix) (String.mk (intToChars ts))
      | none => fs1
    (fs2, acc.2 + 1)

/-- `IndexedDBSync.exportToLocalStorage` (lines 316-365): nothing found means
an early return (no notification evaluated); otherwise every entry is
processed, the success count resolved, and `notifySaveDataChanged` invoked
unconditionally afterwards. -/
def exportToLocalStorage (data : IDBData) (isInIframe : Bool) (fs : FlatStore)
    (last : Option String) : ExportResult :=
  if data.entries.length = 0 then ⟨0, fs, last, []⟩
  else
    let r := data.entries.foldl (exportStep data.timestamps) (fs, 0)
    let n := notifySaveDataChanged isInIframe r.1 last
    ⟨r.2, r.1, n.1, n.2⟩

/-- `WigdosXPSync.handleGetAllLocalStorageData` (lines 583-609): enumerates
every FlatStore entry — with no `::ts` filter — into the `saveDataResponse`
payload. -/
def handleGetAllLocalStorageData (fs : FlatStore) (messageId : String) : Msg :=
  .saveDataResponse messageId (some fs)

/-- `WigdosXPSync.handleSetAllLocalStorageData` (lines 611-658): with a
truthy entry set, clears FlatStore, writes the given entries, runs the import
and only then posts `loadDataResponse` with `success = true`; with an absent
or falsy entry set the guard skips everything and nothing is posted. -/
def handleSetAllLocalStorageData (data : Option (List (String × String)))
    (messageId : String) (fs : FlatStore) (st : Store) :
    FlatStore × Store × List Msg :=
  match data with
  | some entries =>
    let fs1 := fsSetAll [] entries
    let r := importFromLocalStorage fs1 st
    (fs1, r.2, [.loadDataResponse messageId true])
  | none => (fs, st, [])

/-! ### The `requestInitialSaveData` response listener (lines 503-556). -/

/-- State of one correlated request: whether the `message` listener is still
registered, whether the 5000 ms timeout is still pending, and the local
stores the response handler writes into. -/
structure ReqState where
  registered : Bool
  timeoutArmed : Bool
  flat : FlatStore
  store : Store

/-- An inbound `message` event's fields. -/
structure InboundMsg where
  mtype : String
  messageId : String
  allLocalStorageData : Option (List (String × String))

/-- Events affecting a pending request. -/
inductive ReqEvent where
  | timeoutFire
  | inbound (m : InboundMsg)

/-- One event step.  The timeout callback only logs (it does not remove the
listener).  A matching response clears the timeout, deregisters the listener
and, when it carries a non-empty entry set, writes the entries into FlatStore
and imports them into Store.  A non-matching message, or any message once
deregistered, does nothing. -/
def responseStep (myId : String) (s : ReqState) : ReqEvent → ReqState
  | .timeoutFire => if s.timeoutArmed then { s with timeoutArmed := false } else s
  | .inbound m =>
    if s.registered ∧ m.mtype = "initialSaveDataResponse" ∧ m.messageId = myId then
      let s1 : ReqState := { s with timeoutArmed := false, registered := false }
      match m.allLocalStorageData with
      | some entries =>
        if entries.length > 0 then
          let fs1 := fsSetAll s1.flat entries
          let r := importFromLocalStorage fs1 s1.store
          { s1 with flat := fs1, store := r.2 }
        else s1
      | none => s1
    else s

/-! ### FlatStore write lemmas -/

theorem fsGet_fsSet_self (fs : FlatStore) (k v : String) :
    fsGet (fsSet fs k v) k = some v := by
  induction fs with
  | nil => simp [fsSet, fsGet]
  | cons kv rest ih =>
    by_cases h : kv.1 = k
    · simp [fsSet, fsGet, h]
    · simp [fsSet, fsGet, h, ih]

theorem fsGet_fsSet_ne (fs : FlatStore) (k v : String) (q : String) (h : q ≠ k) :
    fsGet (fsSet fs k v) q = fsGet fs q := by
  have h2 : ¬(k = q) := fun hh => h hh.symm
  induction fs with
  | nil => simp [fsSet, fsGet, h2]
  | cons kv rest ih =>
    by_cases hk : kv.1 = k
    · subst hk
      simp [fsSet, fsGet, h2]
    · by_cases hq : kv.1 = q
      · simp [fsSet, fsGet, hk, hq, h]
      · simp [fsSet, fsGet, hk, hq, ih]

theorem fsSet_noop (fs : FlatStore) (k v : String) (h : fsGet fs k = some v) :
    fsSet fs k v = fs := by
  induction fs with
  | nil => simp [fsGet] at h
  | cons kv rest ih =>
    by_cases hk : kv.1 = k
    · subst hk
      simp [fsGet] at h
      simp [fsSet, ← h]
    · simp [fsGet, hk] at h
      simp [fsSet, hk, ih h]

theorem fsSetAll_nil (fs : FlatStore) : fsSetAll fs [] = fs := rfl

theorem fsSetAll_cons (fs : FlatStore) (w : String × String) (ws : List (String × String)) :
    fsSetAll fs (w :: ws) = fsSetAll (fsSet fs w.1 w.2) ws := rfl

theorem fsGet_fsSetAll_notin (ws : List (String × String)) (fs : FlatStore) (k : String)
    (h : k ∉ ws.map Prod.fst) : fsGet (fsSetAll fs ws) k = fsGet fs k := by
  induction ws generalizing fs with
  | nil => rfl
  | cons w ws ih =>
    simp only [List.map_cons, List.mem_cons, not_or] at h
    rw [fsSetAll_cons, ih _ h.2, fsGet_fsSet_ne _ _ _ _ h.1]

theorem fsGet_fsSetAll_mem (ws : List (String × String)) (fs : FlatStore)
    (hnd : (ws.map Prod.fst).Nodup) (kv : String × String) (h : kv ∈ ws) :
    fsGet (fsSetAll fs ws) kv.1 = some kv.2 := by
  induction ws generalizing fs with
  | nil => simp at h
  | cons w ws ih =>
    simp only [List.map_cons, List.nodup_cons] at hnd
    rcases List.mem_cons.mp h with rfl | hmem
    · rw [fsSetAll_cons, fsGet_fsSetAll_notin _ _ _ hnd.1, fsGet_fsSet_self]
    · rw [fsSetAll_cons]
      exact ih _ hnd.2 hmem

theorem fsSetAll_noop (ws : List (String × String)) (fs : FlatStore)
    (h : ∀ kv ∈ ws, fsGet fs kv.1 = some kv.2) : fsSetAll fs ws = fs := by
  induction ws with
  | nil => rfl
  | cons w ws ih =>
    rw [fsSetAll_cons, fsSet_noop fs w.1 w.2 (h w (by simp))]
    exact ih (fun kv hkv => h kv (by simp [hkv]))

theorem fsSetAll_idem (ws : List (String × String)) (fs : FlatStore)
    (hnd : (ws.map Prod.fst).Nodup) :
    fsSetAll (fsSetAll fs ws) ws = fsSetAll fs ws :=
  fsSetAll_noop ws (fsSetAll fs ws) (fun kv hkv => fsGet_fsSetAll_mem ws fs hnd kv hkv)

/-! ### Import characterisation and idempotence -/

/-- The `(key, value)` upserts one `importFromLocalStorage` run performs. -/
def importWrites : FlatStore → List (String × Value)
  | [] => []
  | kv :: rest =>
    if strEndsWith kv.1 tsSuffix then importWrites rest
    else if strStartsWith kv.1 localStoragePrefix then
      match deserializeFromLocalStorage kv.2 with
      | .ok v => (strDrop kv.1 localStoragePrefix.length, v) :: importWrites rest
      | .error _ => importWrites rest
    else importWrites rest

theorem importFold (fs : FlatStore) :
    ∀ acc : Nat × Store,
      fs.foldl importStep acc =
        (acc.1 + (importWrites fs).length, putAll acc.2 (importWrites fs)) := by
  induction fs with
  | nil => intro acc; simp [importWrites, putAll]
  | cons kv rest ih =>
    intro acc
    by_cases hts : strEndsWith kv.1 tsSuffix
    · simp only [List.foldl_cons, importStep, if_pos hts, importWrites]
      exact ih acc
    · by_cases hpre : strStartsWith kv.1 localStoragePrefix
      · cases hdes : deserializeFromLocalStorage kv.2 with
        | ok v =>
          simp only [List.foldl_cons, importStep, if_neg hts, if_pos hpre, hdes,
            importWrites]
          rw [ih]
          show _ = (acc.1 + ((_, v) :: importWrites rest).length,
            putAll acc.2 ((_, v) :: importWrites rest))
          simp only [List.length_cons, putAll, List.foldl_cons, Prod.mk.injEq]
          exact ⟨by omega, trivial⟩
        | error e =>
          simp only [List.foldl_cons, importStep, if_neg hts, if_pos hpre, hdes,
            importWrites]
          exact ih acc
      · simp only [List.foldl_cons, importStep, if_neg hts, if_neg hpre,
          importWrites]
        exact ih acc

theorem importFromLocalStorage_spec (fs : FlatStore) (st : Store) :
    importFromLocalStorage fs st =
      ((importWrites fs).length, putAll st (importWrites fs)) := by
  have h := importFold fs (0, st)
  simpa [importFromLocalStorage] using h

/-- The last value written to a key by a write list. -/
def lastWrite : List (String × Value) → String → Option Value
  | [], _ => none
  | kv :: ws, k =>
    match lastWrite ws k with
    | some v => some v
    | none => if kv.1 = k then some kv.2 else none

theorem putAll_apply (ws : List (String × Value)) :
    ∀ (st : Store) (q : String),
      putAll st ws q = match lastWrite ws q with | some v => some v | none => st q := by
  induction ws with
  | nil => intro st q; simp [putAll, lastWrite]
  | cons w ws ih =>
    intro st q
    show putAll (storePut st w.1 w.2) ws q = _
    rw [ih]
    cases hl : lastWrite ws q with
    | some v => simp [lastWrite, hl]
    | none =>
      by_cases hq : w.1 = q
      · simp [lastWrite, hl, hq, storePut]
      · have hq2 : ¬(q = w.1) := fun hh => hq hh.symm
        simp [lastWrite, hl, hq, storePut, hq2]

theorem putAll_idem (ws : List (String × Value)) (st : Store) :
    putAll (putAll st ws) ws = putAll st ws := by
  funext q
  rw [putAll_apply, putAll_apply]
  cases hl : lastWrite ws q with
  | some v => simp
  | none => simp [putAll_apply, hl]

/-! ### Export characterisation and write-key distinctness -/

/-- The FlatStore writes one export entry performs. -/
def exportWrites (tss : List (String × Int)) (e : String × Value) :
    List (String × String) :=
  let serialized := serializeForLocalStorage e.2
  if serialized.length > MAX_LOCALSTORAGE_BYTES then []
  else
    match tss.lookup e.1 with
    | some ts => [(localStoragePrefix ++ e.1, serialized),
        (localStoragePrefix ++ e.1 ++ tsSuffix, String.mk (intToChars ts))]
    | none => [(localStoragePrefix ++ e.1, serialized)]

/-- Whether an entry passes the size guard. -/
def sizeOk (e : String × Value) : Bool :=
  decide ((serializeForLocalStorage e.2).length ≤ MAX_LOCALSTORAGE_BYTES)

theorem exportFold (tss : List (String × Int)) (entries : List (String × Value)) :
    ∀ acc : FlatStore × Nat,
      entries.foldl (exportStep tss) acc =
        (fsSetAll acc.1 (entries.flatMap (exportWrites tss)),
          acc.2 + (entries.filter sizeOk).length) := by
  induction entries with
  | nil => intro acc; simp [fsSetAll]
  | cons e rest ih =>
    intro acc
    by_cases hsz : (serializeForLocalStorage e.2).length > MAX_LOCALSTORAGE_BYTES
    · have hso : sizeOk e = false := by simp [sizeOk]; omega
      simp only [List.foldl_cons, exportStep, if_pos hsz, List.flatMap_cons,
        exportWrites, List.filter_cons, hso]
      rw [ih]
      simp
    · have hso : sizeOk e = true := by simp [sizeOk]; omega
      cases hts : tss.lookup e.1 with
      | some ts =>
        simp only [List.foldl_cons, exportStep, if_neg hsz, hts, List.flatMap_cons,
          exportWrites, List.filter_cons, hso]
        rw [ih]
        simp only [hso, List.filter_cons, if_true, List.length_cons, Prod.mk.injEq,
          List.cons_append, List.nil_append]
        refine ⟨?_, by omega⟩
        rw [fsSetAll_cons, fsSetAll_cons]
      | none =>
        simp only [List.foldl_cons, exportStep, if_neg hsz, hts, List.flatMap_cons,
          exportWrites, List.filter_cons, hso]
        rw [ih]
        simp only [hso, List.filter_cons, if_true, List.length_cons, Prod.mk.injEq,
          List.cons_append, List.nil_append]
        refine ⟨?_, by omega⟩
        rw [fsSetAll_cons]

/-! ### Namespaced-key disjointness -/

theorem string_data_append (s t : String) : (s ++ t).data = s.data ++ t.data := rfl

theorem string_of_data {a b : String} (h : a.data = b.data) : a = b :=
  congrArg String.mk h

theorem prefix_append_cancel {a b : String}
    (h : localStoragePrefix ++ a = localStoragePrefix ++ b) : a = b := by
  apply string_of_data
  have hd := congrArg String.data h
  rw [string_data_append, string_data_append] at hd
  exact List.append_cancel_left hd

theorem strEndsWith_append_ts (s : String) :
    strEndsWith (s ++ tsSuffix) tsSuffix = true := by
  simp only [strEndsWith, List.isSuffixOf_iff_suffix, string_data_append]
  exact List.suffix_append _ _

theorem tskey_len (s : String) :
    (s ++ tsSuffix).data.length = s.data.length + 4 := by
  rw [string_data_append]
  simp [tsSuffix]

theorem key_ne_tskey {k k2 : String} (h : strEndsWith k tsSuffix = false) :
    localStoragePrefix ++ k ≠ (localStoragePrefix ++ k2) ++ tsSuffix := by
  intro he
  have : k = k2 ++ tsSuffix := by
    apply prefix_append_cancel
    rw [he]
    apply string_of_data
    rw [string_data_append, string_data_append, string_data_append, string_data_append]
    simp
  rw [this, strEndsWith_append_ts] at h
  exact Bool.true_eq_false.mp h

theorem key_ne_own_tskey (k : String) :
    localStoragePrefix ++ k ≠ (localStoragePrefix ++ k) ++ tsSuffix := by
  intro he
  have := congrArg (fun s => s.data.length) he
  simp only [tskey_len] at this
  omega

theorem tskey_inj {a b : String} (h : a ++ tsSuffix = b ++ tsSuffix) : a = b := by
  apply string_of_data
  have hd := congrArg String.data h
  rw [string_data_append, string_data_append] at hd
  exact List.append_cancel_right hd

/-- Any write key of one export entry is the data key or its companion key. -/
theorem exportWrites_keys (tss : List (String × Int)) (e : String × Value) :
    ∀ q ∈ (exportWrites tss e).map Prod.fst,
      q = localStoragePrefix ++ e.1 ∨ q = (localStoragePrefix ++ e.1) ++ tsSuffix := by
  intro q hq
  unfold exportWrites at hq
  by_cases hsz : (serializeForLocalStorage e.2).length > MAX_LOCALSTORAGE_BYTES
  · simp [hsz] at hq
  · cases hts : tss.lookup e.1 with
    | some ts =>
      simp [hsz, hts, String.append_assoc] at hq
      rcases hq with rfl | rfl
      · exact Or.inl rfl
      · right
        apply string_of_data
        simp [string_data_append]
    | none =>
      simp [hsz, hts] at hq
      exact Or.inl hq

theorem mem_flatMap_keys {tss : List (String × Int)} {rest : List (String × Value)}
    {q : String} (h : q ∈ (rest.flatMap (exportWrites tss)).map Prod.fst) :
    ∃ e2 ∈ rest, q ∈ (exportWrites tss e2).map Prod.fst := by
  rw [List.mem_map] at h
  obtain ⟨w, hw, hwq⟩ := h
  rw [List.mem_flatMap] at hw
  obtain ⟨e2, he2, hwe2⟩ := hw
  exact ⟨e2, he2, hwq ▸ List.mem_map_of_mem Prod.fst hwe2⟩

theorem writeKeys_nodup (tss : List (String × Int)) (entries : List (String × Value))
    (hnd : (entries.map Prod.fst).Nodup)
    (hts : ∀ e ∈ entries, strEndsWith e.1 tsSuffix = false) :
    ((entries.flatMap (exportWrites tss)).map Prod.fst).Nodup := by
  induction entries with
  | nil => simp
  | cons e rest ih =>
    simp only [List.map_cons, List.nodup_cons] at hnd
    have hrest := ih hnd.2 (fun a ha => hts a (by simp [ha]))
    rw [List.flatMap_cons, List.map_append]
    rw [List.nodup_append]
    refine ⟨?_, hrest, ?_⟩
    · -- within one entry: at most the data key and its companion, distinct
      unfold exportWrites
      by_cases hsz : (serializeForLocalStorage e.2).length > MAX_LOCALSTORAGE_BYTES
      · simp [hsz]
      · cases htsl : tss.lookup e.1 with
        | some ts =>
          simp [hsz, htsl]
          intro he
          exact key_ne_own_tskey e.1 (by
            apply string_of_data
            have := congrArg String.data he
            simpa [string_data_append] using this)
        | none => simp [hsz, htsl]
    · -- disjointness with the write keys of later entries
      intro q hq hq2
      rcases exportWrites_keys tss e q hq with rfl | rfl
      · obtain ⟨e2, he2, hqe2⟩ := mem_flatMap_keys hq2
        rcases exportWrites_keys tss e2 _ hqe2 with hk | hk
        · exact hnd.1 (by
            rw [show e.1 = e2.1 from prefix_append_cancel hk]
            exact List.mem_map_of_mem Prod.fst he2)
        · exact absurd hk (key_ne_tskey (hts e (by simp)))
      · obtain ⟨e2, he2, hqe2⟩ := mem_flatMap_keys hq2
        rcases exportWrites_keys tss e2 _ hqe2 with hk | hk
        · exact absurd hk.symm (key_ne_tskey (hts e2 (by simp [he2])))
        · exact hnd.1 (by
            rw [show e.1 = e2.1 from prefix_append_cancel (tskey_inj hk)]
            exact List.mem_map_of_mem Prod.fst he2)

/-! ### Notification dedup and export stability -/

theorem notify_lastSynced (i : Bool) (fs : FlatStore) (last : Option String) :
    i = true → (notifySaveDataChanged i fs last).1 = some (payloadString (notifyPayload fs)) := by
  intro hi
  subst hi
  unfold notifySaveDataChanged
  by_cases h : last = some (payloadString (notifyPayload fs))
  · simp [h]
  · simp [h]

theorem notify_silent_on_match (i : Bool) (fs : FlatStore) :
    (notifySaveDataChanged i fs
      (notifySaveDataChanged i fs (none : Option String)).1).2 = [] := by
  cases i
  · rfl
  · rw [notifySaveDataChanged, notify_lastSynced true fs none rfl]
    simp [notifySaveDataChanged]

theorem notify_fires_iff (fs : FlatStore) (last : Option String) :
    (notifySaveDataChanged true fs last).2 ≠ [] ↔
      last ≠ some (payloadString (notifyPayload fs)) := by
  unfold notifySaveDataChanged
  by_cases h : last = some (payloadString (notifyPayload fs))
  · simp [h]
  · simp [h]

theorem export_flat (data : IDBData) (i : Bool) (fs : FlatStore) (last : Option String)
    (hne : data.entries.length ≠ 0) :
    (exportToLocalStorage data i fs last).flat =
      fsSetAll fs (data.entries.flatMap (exportWrites data.timestamps)) := by
  unfold exportToLocalStorage
  rw [if_neg hne, exportFold]

theorem export_count (data : IDBData) (i : Bool) (fs : FlatStore) (last : Option String)
    (hne : data.entries.length ≠ 0) :
    (exportToLocalStorage data i fs last).count = (data.entries.filter sizeOk).length := by
  unfold exportToLocalStorage
  rw [if_neg hne, exportFold]
  simp

theorem export_sent (data : IDBData) (i : Bool) (fs : FlatStore) (last : Option String)
    (hne : data.entries.length ≠ 0) :
    (exportToLocalStorage data i fs last).sent =
      (notifySaveDataChanged i
        (fsSetAll fs (data.entries.flatMap (exportWrites data.timestamps))) last).2 := by
  unfold exportToLocalStorage
  rw [if_neg hne, exportFold]

theorem export_lastSynced (data : IDBData) (i : Bool) (fs : FlatStore) (last : Option String)
    (hne : data.entries.length ≠ 0) :
    (exportToLocalStorage data i fs last).lastSynced =
      (notifySaveDataChanged i
        (fsSetAll fs (data.entries.flatMap (exportWrites data.timestamps))) last).1 := by
  unfold exportToLocalStorage
  rw [if_neg hne, exportFold]

/-- Two consecutive export cycles over the same Store contents: the second
cycle rewrites every FlatStore entry with the value it already holds, so the
FlatStore is unchanged and the dedup guard suppresses the second
notification. -/
theorem export_twice_silent (data : IDBData) (i : Bool) (fs : FlatStore)
    (last : Option String)
    (hnd : (data.entries.map Prod.fst).Nodup)
    (hts : ∀ e ∈ data.entries, strEndsWith e.1 tsSuffix = false) :
    (exportToLocalStorage data i
      (exportToLocalStorage data i fs last).flat
      (exportToLocalStorage data i fs last).lastSynced).sent = [] := by
  by_cases hne : data.entries.length = 0
  · simp [exportToLocalStorage, hne]
  · have hkeys := writeKeys_nodup data.timestamps data.entries hnd hts
    rw [export_sent data i _ _ hne, export_flat data i fs last hne,
      fsSetAll_idem _ _ hkeys, export_lastSynced data i fs last hne]
    cases i with
    | false => rfl
    | true =>
      rw [notify_lastSynced true _ last rfl]
      unfold notifySaveDataChanged
      simp

/-! ### Oversized payloads, unrecognised tags, companion-key filtering -/

theorem escapeChar_a : escapeChar 'a' = ['a'] := by decide

theorem replicate_escape (n : Nat) :
    ((List.replicate n 'a').map escapeChar).flatten = List.replicate n 'a' := by
  induction n with
  | zero => rfl
  | succ m ih => simp [List.replicate_succ, escapeChar_a, ih]

theorem serialize_vstr (s : String) :
    serializeCore (.vstr s) = "JS:".data ++ quoteChars s.data := by
  simp [serializeCore, stringifyJson]

theorem serialize_vstr_len (s : String) :
    (serializeForLocalStorage (.vstr s)).length =
      ((s.data.map escapeChar).flatten).length + 5 := by
  show (serializeCore (.vstr s)).length = _
  rw [serialize_vstr]
  simp [quoteChars]

/-- A value whose serialised form exceeds `MAX_LOCALSTORAGE_BYTES`. -/
def overlong : Value := .vstr (String.mk (List.replicate 4194300 'a'))

theorem overlong_len : (serializeForLocalStorage overlong).length = 4194305 := by
  rw [show overlong = .vstr (String.mk (List.replicate 4194300 'a')) from rfl,
    serialize_vstr_len, data_mk, replicate_escape, List.length_replicate]

theorem overlong_oversized :
    (serializeForLocalStorage overlong).length > MAX_LOCALSTORAGE_BYTES := by
  rw [overlong_len]
  norm_num [MAX_LOCALSTORAGE_BYTES]

theorem sizeOk_overlong (k : String) : sizeOk (k, overlong) = false := by
  have h := overlong_oversized
  simp only [sizeOk, decide_eq_false_iff_not, not_le]
  exact h

/-- The decode dispatch: the exact sentinels and the six tag prefixes, in the
source's order. -/
def recognizedTag (s : String) : Bool :=
  s = "JS:__NULL__" || s = "JS:__UNDEFINED__" ||
    strStartsWith s "AB:" || strStartsWith s "TA:" || strStartsWith s "BL:" ||
    strStartsWith s "DATE:" || strStartsWith s "JS:" || strStartsWith s "OBJ:"

theorem data_eq_iff {a b : String} : a.data = b.data ↔ a = b :=
  ⟨string_of_data, fun h => h ▸ rfl⟩

theorem deserialize_unrecognized (s : String) (h : recognizedTag s = false) :
    deserializeFromLocalStorage s = .ok (.vstr s) := by
  simp only [recognizedTag, Bool.or_eq_false_iff, decide_eq_false_iff_not,
    strStartsWith] at h
  obtain ⟨⟨⟨⟨⟨⟨⟨h1, h2⟩, h3⟩, h4⟩, h5⟩, h6⟩, h7⟩, h8⟩ := h
  show deserializeCore (s.data.length + 1) s.data = .ok (.vstr s)
  rw [deserializeCore.eq_def]
  have d1 : ¬(s.data = "JS:__NULL__".data) := fun hd => h1 (data_eq_iff.mp hd)
  have d2 : ¬(s.data = "JS:__UNDEFINED__".data) := fun hd => h2 (data_eq_iff.mp hd)
  simp only [if_neg d1, if_neg d2, h3, h4, h5, h6, h7, h8, Bool.false_eq_true,
    if_false, mk_data]

theorem deserialize_js_colon_fails :
    deserializeFromLocalStorage (String.mk ['J', 'S', ':']) = .error "SyntaxError" := rfl

/-- Import performs the same upserts whether or not the `::ts` companion
entries are present: they are skipped during enumeration. -/
theorem importWrites_filter_ts (fs : FlatStore) :
    importWrites (fs.filter (fun kv => !strEndsWith kv.1 tsSuffix)) = importWrites fs := by
  induction fs with
  | nil => rfl
  | cons kv rest ih =>
    by_cases hts : strEndsWith kv.1 tsSuffix = true
    · have hnot : (!strEndsWith kv.1 tsSuffix) = false := by simp [hts]
      simp only [List.filter_cons, hnot, Bool.false_eq_true, if_false]
      rw [ih]
      simp only [importWrites, if_pos hts]
    · have hf : strEndsWith kv.1 tsSuffix = false := by
        cases hb : strEndsWith kv.1 tsSuffix
        · rfl
        · exact absurd hb hts
      have hnot : (!strEndsWith kv.1 tsSuffix) = true := by simp [hf]
      simp only [List.filter_cons, hnot, if_true]
      simp only [importWrites, hf, Bool.false_eq_true, if_false, ih]

/-- The keys of an oversized entry are written by no entry of the batch. -/
theorem oversized_key_not_written (data : IDBData) (e : String × Value)
    (hmem : e ∈ data.entries)
    (hbig : (serializeForLocalStorage e.2).length > MAX_LOCALSTORAGE_BYTES)
    (hnd : (data.entries.map Prod.fst).Nodup)
    (hts : ∀ a ∈ data.entries, strEndsWith a.1 tsSuffix = false) :
    localStoragePrefix ++ e.1 ∉
      ((data.entries.flatMap (exportWrites data.timestamps)).map Prod.fst) ∧
    (localStoragePrefix ++ e.1) ++ tsSuffix ∉
      ((data.entries.flatMap (exportWrites data.timestamps)).map Prod.fst) := by
  have hW : exportWrites data.timestamps e = [] := by
    unfold exportWrites
    rw [if_pos hbig]
  constructor
  · intro hq
    obtain ⟨e2, he2, hqe2⟩ := mem_flatMap_keys hq
    rcases exportWrites_keys data.timestamps e2 _ hqe2 with hk | hk
    · have he12 : e.1 = e2.1 := prefix_append_cancel hk
      have hee : e = e2 := List.inj_on_of_nodup_map hnd hmem he2 he12
      rw [← hee, hW] at hqe2
      simp at hqe2
    · exact absurd hk (key_ne_tskey (hts e hmem))
  · intro hq
    obtain ⟨e2, he2, hqe2⟩ := mem_flatMap_keys hq
    rcases exportWrites_keys data.timestamps e2 _ hqe2 with hk | hk
    · exact absurd hk.symm (key_ne_tskey (hts e2 he2))
    · have he12 : e.1 = e2.1 := prefix_append_cancel (tskey_inj hk)
      have hee : e = e2 := List.inj_on_of_nodup_map hnd hmem he2 he12
      rw [← hee, hW] at hqe2
      simp at hqe2

/-! ## Claims -/

/-- C1 (counterexample): a typed view over part of its buffer (here a
`Uint8Array` of 1 byte at offset 1 over a 3-byte buffer) does not roundtrip:
the encoder serialises the whole buffer and drops the view window, so the
decoder rebuilds a full-buffer view. -/
theorem C1_partial_view_not_roundtripped :
    deserializeFromLocalStorage (serializeForLocalStorage
        (.vtypedview .uint8 [1, 2, 3] 1 1)) ≠
      .ok (.vtypedview .uint8 [1, 2, 3] 1 1) := by
  rw [show deserializeFromLocalStorage (serializeForLocalStorage
      (.vtypedview .uint8 [1, 2, 3] 1 1)) =
      .ok (.vtypedview .uint8 [1, 2, 3] 0 3) from rfl]
  simp

/-- C1 (amended): for every supported structured value — null, undefined,
boolean/number/string primitive, Date, binary buffer, blob, or nested
container — whose typed views all span their entire underlying buffer,
`deserializeFromLocalStorage` applied to `serializeForLocalStorage` returns
the original value. -/
theorem C1_codec_roundtrip_full_span (v : Value) (h : goodValue v = true) :
    deserializeFromLocalStorage (serializeForLocalStorage v) = .ok v :=
  deserialize_serialize v h

/-- C1 witness: the roundtrip at a concrete nested value. -/
theorem C1_codec_roundtrip_full_span_witness :
    goodValue (.vobj [("save", .varr [.vnum 1, .vdate 1000, .varraybuffer [7, 255],
        .vtypedview .uint16 [1, 2, 3, 4] 0 4, .vblob [0], .vnull, .vundef,
        .vbool true, .vstr "x"])]) = true ∧
    deserializeFromLocalStorage (serializeForLocalStorage
        (.vobj [("save", .varr [.vnum 1, .vdate 1000, .varraybuffer [7, 255],
          .vtypedview .uint16 [1, 2, 3, 4] 0 4, .vblob [0], .vnull, .vundef,
          .vbool true, .vstr "x"])])) =
      .ok (.vobj [("save", .varr [.vnum 1, .vdate 1000, .varraybuffer [7, 255],
        .vtypedview .uint16 [1, 2, 3, 4] 0 4, .vblob [0], .vnull, .vundef,
        .vbool true, .vstr "x"])]) :=
  ⟨rfl, C1_codec_roundtrip_full_span _ rfl⟩

/-- C2 (counterexample): a malformed payload under the recognised `JS:` tag
makes the decoder raise (an uncaught `JSON.parse` `SyntaxError`), rather than
degrade to passthrough of the raw string. -/
theorem C2_malformed_payload_raises :
    deserializeFromLocalStorage "JS:" = .error "SyntaxError" := rfl

/-- C2 (amended): a string carrying none of the recognised tags is returned
unchanged by `deserializeFromLocalStorage` (lossy-but-safe passthrough);
under a recognised tag, a malformed payload raises instead. -/
theorem C2_unrecognized_tag_passthrough (s : String) (h : recognizedTag s = false) :
    deserializeFromLocalStorage s = .ok (.vstr s) :=
  deserialize_unrecognized s h

/-- C2 witness: passthrough at a concrete untagged string. -/
theorem C2_unrecognized_tag_passthrough_witness :
    recognizedTag "hello" = false ∧
    deserializeFromLocalStorage "hello" = .ok (.vstr "hello") :=
  ⟨rfl, C2_unrecognized_tag_passthrough "hello" rfl⟩

/-- C7: running `importFromLocalStorage` twice against an unchanged FlatStore
reports the same import count and leaves the Store identical to the state
after the first run (every write is an idempotent upsert). -/
theorem C7_import_idempotent (fs : FlatStore) (st : Store) :
    (importFromLocalStorage fs (importFromLocalStorage fs st).2).1 =
      (importFromLocalStorage fs st).1 ∧
    (importFromLocalStorage fs (importFromLocalStorage fs st).2).2 =
      (importFromLocalStorage fs st).2 := by
  rw [importFromLocalStorage_spec fs st]
  rw [importFromLocalStorage_spec fs (putAll st (importWrites fs))]
  exact ⟨rfl, putAll_idem (importWrites fs) st⟩

/-- C10: a `setAllLocalStorageData` message whose `allLocalStorageData` field
is absent or falsy leaves FlatStore and Store unchanged and posts no
`loadDataResponse` at all. -/
theorem C10_falsy_payload_ignored (fs : FlatStore) (st : Store) (mid : String) :
    handleSetAllLocalStorageData none mid fs st = (fs, st, []) := rfl

/-- C8: with a prior namespaced FlatStore entry present, a
`setAllLocalStorageData` request carrying `{x: "1"}` clears FlatStore, leaves
exactly the given entry, completes the import into Store (the unprefixed key
imports nothing) and only then posts `loadDataResponse` with `success =
true`. -/
theorem C8_set_all_replaces_flatstore (st : Store) (mid oldv : String) :
    handleSetAllLocalStorageData (some [("x", "1")]) mid
        [(localStoragePrefix ++ "oldkey", oldv)] st =
      ([("x", "1")], st, [.loadDataResponse mid true]) := by
  show (fsSetAll [] [("x", "1")],
    (importFromLocalStorage (fsSetAll [] [("x", "1")]) st).2,
    [Msg.loadDataResponse mid true]) = _
  have h1 : strEndsWith "x" tsSuffix = false := rfl
  have h2 : strStartsWith "x" localStoragePrefix = false := rfl
  simp [fsSetAll, fsSet, importFromLocalStorage, importStep, h1, h2]

/-- C9: exporting a Store holding `{a: 1, b: Date(1000)}` writes the
FlatStore entries `dta = "JS:1"` and `dtb = "DATE:1000"`; importing that
FlatStore into a cleared Store restores exactly `{a: 1, b: Date(1000)}`. -/
theorem C9_export_import_scenario :
    (exportToLocalStorage ⟨[("a", .vnum 1), ("b", .vdate 1000)], []⟩ false [] none).flat =
      [("dta", "JS:1"), ("dtb", "DATE:1000")] ∧
    (importFromLocalStorage [("dta", "JS:1"), ("dtb", "DATE:1000")]
        (fun _ => none)).2 =
      (fun k => if k = "b" then some (.vdate 1000)
        else if k = "a" then some (.vnum 1) else none) := by
  constructor
  · rfl
  · rfl

/-- C3 (counterexample): an export cycle that finds one entry but writes zero
(the single entry exceeds the size limit) still fires a notification on the
first cycle, because `notifySaveDataChanged` is invoked unconditionally after
the batch and the cached digest is still unset. -/
theorem C3_notification_with_zero_written :
    (exportToLocalStorage ⟨[("k", overlong)], []⟩ true [] none).count = 0 ∧
    (exportToLocalStorage ⟨[("k", overlong)], []⟩ true [] none).sent ≠ [] := by
  have hne : ([("k", overlong)] : List (String × Value)).length ≠ 0 := by simp
  have hw : exportWrites [] ("k", overlong) = [] := by
    unfold exportWrites
    rw [if_pos overlong_oversized]
  constructor
  · rw [export_count ⟨[("k", overlong)], []⟩ true [] none hne]
    simp [List.filter_cons, sizeOk_overlong]
  · rw [export_sent ⟨[("k", overlong)], []⟩ true [] none hne]
    simp [hw, fsSetAll, notifySaveDataChanged]

/-- C3 (amended): the notification is evaluated whenever the Store
enumeration found at least one entry, even if zero were successfully written;
it fires only when the payload digest differs from the cached digest of the
last payload sent; with unique, suffix-free Store keys (as IndexedDB
guarantees), two consecutive exports with no intervening Store mutation
produce at most one notification — the second cycle is silent. -/
theorem C3_dedup_guard (data : IDBData) (i : Bool) (fs : FlatStore)
    (last : Option String)
    (hnd : (data.entries.map Prod.fst).Nodup)
    (hts : ∀ e ∈ data.entries, strEndsWith e.1 tsSuffix = false) :
    ((exportToLocalStorage data i fs last).sent ≠ [] →
      last ≠ some (payloadString (notifyPayload
        (exportToLocalStorage data i fs last).flat))) ∧
    (exportToLocalStorage data i
        (exportToLocalStorage data i fs last).flat
        (exportToLocalStorage data i fs last).lastSynced).sent = [] := by
  constructor
  · intro hsent
    by_cases hne : data.entries.length = 0
    · simp [exportToLocalStorage, hne] at hsent
    · rw [export_sent data i fs last hne] at hsent
      rw [export_flat data i fs last hne]
      cases i with
      | false => simp [notifySaveDataChanged] at hsent
      | true =>
        rw [notifySaveDataChanged] at hsent
        by_cases hls : last = some (payloadString (notifyPayload
            (fsSetAll fs (data.entries.flatMap (exportWrites data.timestamps)))))
        · simp [hls] at hsent
        · exact hls
  · exact export_twice_silent data i fs last hnd hts

/-- C3 witness: a concrete pair of consecutive exports, the second silent. -/
theorem C3_dedup_guard_witness :
    (exportToLocalStorage ⟨[("a", .vnum 1)], []⟩ true
        (exportToLocalStorage ⟨[("a", .vnum 1)], []⟩ true [] none).flat
        (exportToLocalStorage ⟨[("a", .vnum 1)], []⟩ true [] none).lastSynced).sent
      = [] :=
  (C3_dedup_guard ⟨[("a", .vnum 1)], []⟩ true [] none (by simp)
    (by
      intro e he
      simp only [List.mem_singleton] at he
      subst he
      rfl)).2

/-- C4 (counterexample): after the 5000 ms timeout fires, the listener is
still registered (the timeout callback only logs), and a matching response
arriving afterwards is processed in full — here it overwrites FlatStore. -/
theorem C4_late_response_processed :
    (responseStep "m1" ⟨true, true, [], fun _ => none⟩ .timeoutFire).registered = true ∧
    (responseStep "m1"
        (responseStep "m1" ⟨true, true, [], fun _ => none⟩ .timeoutFire)
        (.inbound ⟨"initialSaveDataResponse", "m1", some [("k", "v")]⟩)).flat =
      [("k", "v")] ∧
    [("k", "v")] ≠ ([] : FlatStore) := by
  refine ⟨rfl, rfl, by simp⟩

/-- C4 (amended): the response listener matches inbound messages by
`(type, messageId)` and deregisters itself on first match only; timeout
expiry merely logs, leaving registration and both stores untouched; hence a
matching response arriving after the timeout is still processed. Non-matching
messages, and any message once deregistered, have no effect. -/
theorem C4_listener_lifecycle (myId : String) (s : ReqState) (m : InboundMsg) :
    ((responseStep myId s .timeoutFire).registered = s.registered ∧
      (responseStep myId s .timeoutFire).flat = s.flat ∧
      (responseStep myId s .timeoutFire).store = s.store) ∧
    (s.registered = true → m.mtype = "initialSaveDataResponse" →
      m.messageId = myId → (responseStep myId s (.inbound m)).registered = false) ∧
    (¬(m.mtype = "initialSaveDataResponse" ∧ m.messageId = myId) →
      responseStep myId s (.inbound m) = s) ∧
    (s.registered = false → responseStep myId s (.inbound m) = s) := by
  refine ⟨?_, ?_, ?_, ?_⟩
  · simp only [responseStep]
    by_cases h : s.timeoutArmed = true
    · simp [h]
    · simp [h]
  · intro hr h1 h2
    simp only [responseStep]
    rw [if_pos (show s.registered = true ∧ m.mtype = "initialSaveDataResponse" ∧
      m.messageId = myId from ⟨hr, h1, h2⟩)]
    cases hd : m.allLocalStorageData with
    | some entries =>
      by_cases hl : 0 < entries.length
      · simp [hl]
      · simp [hl]
    | none => rfl
  · intro hmis
    simp only [responseStep]
    rw [if_neg (fun hc => hmis ⟨hc.2.1, hc.2.2⟩)]
  · intro hr
    simp only [responseStep]
    rw [if_neg (fun hc => by
      rw [hr] at hc
      exact Bool.false_ne_true hc.1)]

/-- C4 witness: the lifecycle facts at concrete states and messages. -/
theorem C4_listener_lifecycle_witness :
    (responseStep "i" ⟨true, true, [], fun _ => none⟩ .timeoutFire).registered = true ∧
    (responseStep "i" ⟨true, true, [], fun _ => none⟩
        (.inbound ⟨"initialSaveDataResponse", "i", none⟩)).registered = false ∧
    responseStep "i" ⟨true, true, [], fun _ => none⟩
        (.inbound ⟨"otherType", "i", none⟩) = ⟨true, true, [], fun _ => none⟩ ∧
    responseStep "i" ⟨false, false, [], fun _ => none⟩
        (.inbound ⟨"initialSaveDataResponse", "i", none⟩) =
      ⟨false, false, [], fun _ => none⟩ := by
  refine ⟨?_, ?_, ?_, ?_⟩
  · exact (C4_listener_lifecycle "i" ⟨true, true, [], fun _ => none⟩
      ⟨"initialSaveDataResponse", "i", none⟩).1.1
  · exact (C4_listener_lifecycle "i" ⟨true, true, [], fun _ => none⟩
      ⟨"initialSaveDataResponse", "i", none⟩).2.1 rfl rfl rfl
  · exact (C4_listener_lifecycle "i" ⟨true, true, [], fun _ => none⟩
      ⟨"otherType", "i", none⟩).2.2.1 (fun hc => by
        have := hc.1
        simp at this)
  · exact (C4_listener_lifecycle "i" ⟨false, false, [], fun _ => none⟩
      ⟨"initialSaveDataResponse", "i", none⟩).2.2.2 rfl

/-- C5: within one export batch, an entry whose serialised form exceeds the
configured maximum is skipped without aborting: it is not written to
FlatStore (neither its data key nor its companion key, both initially
absent), it is excluded from the returned success count, and every other
entry is still processed — the count is exactly the number of entries that
pass the size guard.  Key uniqueness and suffix-freedom reflect what the
IndexedDB source guarantees. -/
theorem C5_size_guard_skips (data : IDBData) (i : Bool) (fs : FlatStore)
    (last : Option String) (e : String × Value)
    (hmem : e ∈ data.entries)
    (hbig : (serializeForLocalStorage e.2).length > MAX_LOCALSTORAGE_BYTES)
    (hnd : (data.entries.map Prod.fst).Nodup)
    (hts : ∀ a ∈ data.entries, strEndsWith a.1 tsSuffix = false)
    (habs : fsGet fs (localStoragePrefix ++ e.1) = none)
    (habs2 : fsGet fs ((localStoragePrefix ++ e.1) ++ tsSuffix) = none) :
    (exportToLocalStorage data i fs last).count =
      (data.entries.filter sizeOk).length ∧
    sizeOk e = false ∧
    fsGet (exportToLocalStorage data i fs last).flat
      (localStoragePrefix ++ e.1) = none ∧
    fsGet (exportToLocalStorage data i fs last).flat
      ((localStoragePrefix ++ e.1) ++ tsSuffix) = none := by
  have hne : data.entries.length ≠ 0 := by
    cases hent : data.entries with
    | nil => rw [hent] at hmem; simp at hmem
    | cons a l => simp [hent]
  obtain ⟨hnk, hnk2⟩ := oversized_key_not_written data e hmem hbig hnd hts
  refine ⟨export_count data i fs last hne, ?_, ?_, ?_⟩
  · simp only [sizeOk, decide_eq_false_iff_not, not_le]
    omega
  · rw [export_flat data i fs last hne, fsGet_fsSetAll_notin _ _ _ hnk]
    exact habs
  · rw [export_flat data i fs last hne, fsGet_fsSetAll_notin _ _ _ hnk2]
    exact habs2

/-- C5 witness: a two-entry batch in which the first entry is oversized; the
count is the number of entries passing the guard and the oversized keys stay
absent. -/
theorem C5_size_guard_skips_witness :
    (exportToLocalStorage ⟨[("k", overlong), ("m", .vnum 1)], []⟩ false [] none).count =
      (([("k", overlong), ("m", .vnum 1)] : List (String × Value)).filter sizeOk).length ∧
    sizeOk ("k", overlong) = false ∧
    fsGet (exportToLocalStorage ⟨[("k", overlong), ("m", .vnum 1)], []⟩
        false [] none).flat (localStoragePrefix ++ "k") = none ∧
    fsGet (exportToLocalStorage ⟨[("k", overlong), ("m", .vnum 1)], []⟩
        false [] none).flat ((localStoragePrefix ++ "k") ++ tsSuffix) = none :=
  C5_size_guard_skips ⟨[("k", overlong), ("m", .vnum 1)], []⟩ false [] none
    ("k", overlong) (by simp) overlong_oversized (by simp)
    (by
      intro a ha
      simp only [List.mem_cons, List.not_mem_nil, or_false] at ha
      rcases ha with rfl | rfl <;> rfl)
    rfl rfl

/-- C6 (counterexample): `handleGetAllLocalStorageData` enumerates FlatStore
with no `::ts` filter, so its `saveDataResponse` payload carries the
companion key as a data entry, contradicting the claim that no enumeration
sent to the hosting context does. -/
theorem C6_get_all_includes_companion :
    ("dtx::ts", "5") ∈ msgDataEntries
      (handleGetAllLocalStorageData [("dtx", "JS:1"), ("dtx::ts", "5")] "m1") := by
  simp [handleGetAllLocalStorageData, msgDataEntries]

/-- C6 (amended): a FlatStore key with the reserved `::ts` suffix is never
imported into Store (`importFromLocalStorage` behaves as if those entries
were filtered out) and never appears in the `saveDataChanged` payload; the
`saveDataResponse` payload of `handleGetAllLocalStorageData`, however,
enumerates FlatStore verbatim, companion entries included. -/
theorem C6_companion_keys_not_data :
    (∀ (fs : FlatStore) (st : Store),
      importFromLocalStorage fs st =
        importFromLocalStorage (fs.filter (fun kv => !strEndsWith kv.1 tsSuffix)) st) ∧
    (∀ (fs : FlatStore) (kv : String × String),
      kv ∈ notifyPayload fs → strEndsWith kv.1 tsSuffix = false) ∧
    (∀ (fs : FlatStore) (mid : String),
      handleGetAllLocalStorageData fs mid = .saveDataResponse mid (some fs)) := by
  refine ⟨?_, ?_, fun _ _ => rfl⟩
  · intro fs st
    rw [importFromLocalStorage_spec, importFromLocalStorage_spec,
      importWrites_filter_ts]
  · intro fs kv hkv
    have := List.of_mem_filter hkv
    simpa using this

/-- C6 witness: the import and payload facts at concrete stores. -/
theorem C6_companion_keys_not_data_witness :
    importFromLocalStorage [("dtx::ts", "5")] (fun _ => none) =
      importFromLocalStorage
        (([("dtx::ts", "5")] : FlatStore).filter
          (fun kv => !strEndsWith kv.1 tsSuffix)) (fun _ => none) ∧
    strEndsWith "dtx" tsSuffix = false ∧
    handleGetAllLocalStorageData [("dtx", "JS:1")] "m2" =
      .saveDataResponse "m2" (some [("dtx", "JS:1")]) := by
  refine ⟨C6_companion_keys_not_data.1 [("dtx::ts", "5")] (fun _ => none), ?_, ?_⟩
  · exact C6_companion_keys_not_data.2.1 [("dtx", "JS:1")] ("dtx", "JS:1") (by
      simp [notifyPayload, List.mem_filter]
      rfl)
  · exact C6_companion_keys_not_data.2.2 [("dtx", "JS:1")] "m2"

end SaveSync
